import Mathlib

/-!
# Verification of the `inventar` persistence layer

Shallow embedding of the data-integrity core of the `verwaltung_db`
inventory application: the `Item` record type (`inventar/data/models.py`),
the JSON fallback backend (`inventar/data/json_repo.py`), the SQLite
backend (`inventar/data/sqlite_repo.py`), and the deactivation-marker
removal performed by the item dialog (`inventar/ui/item_dialog.py`).

Strings are modelled by Lean `String` (lists of unicode codepoints,
matching Python `str`).  Two distinct case foldings appear in the code
and are kept distinct here: CPython's `str.lower` (which lowercases
non-ASCII letters, e.g. `Ä` to `ä`; modelled on the ASCII and Latin-1
ranges, which cover the repository's fixed tokens "Stillgelegt"/"LAGER"
and the umlauts of its German data) and SQLite's `NOCASE` collation /
default `LIKE`, which fold ASCII `A`–`Z` only and leave `Ä` unchanged.
SQLite `LIKE '%v%'` patterns are modelled as NOCASE-folded substring
tests (the repository only ever builds such patterns from user filter
text).
-/

/-! ## Python string primitives -/

/-- CPython `str.lower` on one character, modelled on the ASCII and
Latin-1 ranges: `A`–`Z` (65–90) and `À`–`Þ` (192–222) excluding the
multiplication sign `×` (215) map 32 code points up; every other
character is returned unchanged. -/
def pyLowerChar (c : Char) : Char :=
  if (65 ≤ c.toNat ∧ c.toNat ≤ 90) ∨ (192 ≤ c.toNat ∧ c.toNat ≤ 222 ∧ c.toNat ≠ 215)
  then Char.ofNat (c.toNat + 32) else c

/-- Python `str.lower`. -/
def pyLower (s : String) : String := ⟨s.data.map pyLowerChar⟩

/-- SQLite's `NOCASE` fold of one character: ASCII `A`–`Z` only.  Unlike
CPython's `str.lower` it leaves `À`–`Þ` (e.g. `Ä`) unchanged. -/
def nocaseChar (c : Char) : Char :=
  if 65 ≤ c.toNat ∧ c.toNat ≤ 90 then Char.ofNat (c.toNat + 32) else c

/-- The case folding applied by `COLLATE NOCASE` and by SQLite's default
`LIKE` (ASCII only). -/
def nocaseFold (s : String) : String := ⟨s.data.map nocaseChar⟩

/-- All characters of the string are ASCII (code point below 128): on
such text Python's `str.lower` and the `NOCASE` fold agree. -/
def asciiStr (s : String) : Bool := s.data.all (fun c => decide (c.toNat < 128))

/-- ASCII test on an optional string (`NULL` counts as ASCII). -/
def asciiOpt : Option String → Bool
  | none => true
  | some s => asciiStr s

/-- Python `str.isspace` characters relevant to `strip`/`rstrip`
(the ASCII whitespace set). -/
def pySpace (c : Char) : Bool :=
  c = ' ' || c = '\t' || c = '\n' || c = '\r' || c = '\x0b' || c = '\x0c'

/-- Drop trailing whitespace from a character list (Python `str.rstrip`). -/
def pyRstripList (l : List Char) : List Char :=
  (l.reverse.dropWhile pySpace).reverse

/-- Python `str.rstrip()`. -/
def pyRstrip (s : String) : String := ⟨pyRstripList s.data⟩

/-- Drop leading and trailing whitespace (Python `str.strip()`). -/
def pyStripList (l : List Char) : List Char :=
  pyRstripList (l.dropWhile pySpace)

/-- Python `str.strip()`. -/
def pyStrip (s : String) : String := ⟨pyStripList s.data⟩

/-- Contiguous-sublist test: `subListOf needle hay` is true iff `needle`
occurs contiguously inside `hay`. -/
def subListOf (needle : List Char) : List Char → Bool
  | [] => decide (needle = [])
  | c :: t => needle.isPrefixOf (c :: t) || subListOf needle t

/-- Python's substring test `needle in hay`. -/
def pyIn (needle hay : String) : Bool := subListOf needle.data hay.data

/-- Python `str.endswith`. -/
def pyEndsWith (s suffixStr : String) : Bool :=
  suffixStr.data.isSuffixOf s.data

/-- Python `str(x)` applied to an optional string: `str(None) = "None"`. -/
def pyStrOfOpt : Option String → String
  | none => "None"
  | some s => s

/-! ## The Item record (`inventar/data/models.py`) -/

/-- `Item` dataclass: one inventory record. -/
structure Item where
  id : Option Nat
  objekttyp : Option String
  hersteller : Option String
  modell : Option String
  seriennummer : Option String
  einkaufsdatum : Option String
  zuweisungsdatum : Option String
  aktueller_besitzer : Option String
  anmerkungen : Option String
  stillgelegt : Bool
deriving DecidableEq, Repr

/-- A fresh `Item()` with all defaults (`None` fields, `stillgelegt=False`). -/
def Item.default : Item :=
  { id := none, objekttyp := none, hersteller := none, modell := none,
    seriennummer := none, einkaufsdatum := none, zuweisungsdatum := none,
    aktueller_besitzer := none, anmerkungen := none, stillgelegt := false }

/-- `Item._normalize`: `None` stays `None`; otherwise strip, and return
`None` for the empty result. -/
def Item.normalizeValue : Option String → Option String
  | none => none
  | some v => let text := pyStrip v; if text = "" then none else some text

/-- The dictionary produced by `Item.to_dict` (same ten keys/values). -/
structure PyDict where
  id : Option Nat
  objekttyp : Option String
  hersteller : Option String
  modell : Option String
  seriennummer : Option String
  einkaufsdatum : Option String
  zuweisungsdatum : Option String
  aktueller_besitzer : Option String
  anmerkungen : Option String
  stillgelegt : Bool
deriving DecidableEq, Repr

/-- `Item.to_dict`. -/
def Item.toDict (self : Item) : PyDict :=
  { id := self.id, objekttyp := self.objekttyp, hersteller := self.hersteller,
    modell := self.modell, seriennummer := self.seriennummer,
    einkaufsdatum := self.einkaufsdatum, zuweisungsdatum := self.zuweisungsdatum,
    aktueller_besitzer := self.aktueller_besitzer, anmerkungen := self.anmerkungen,
    stillgelegt := self.stillgelegt }

/-- `Item.from_row` on the dictionary shape: every textual field is
passed through `_normalize`, `stillgelegt` is coerced to bool. -/
def Item.fromRow (row : PyDict) : Item :=
  { id := row.id,
    objekttyp := Item.normalizeValue row.objekttyp,
    hersteller := Item.normalizeValue row.hersteller,
    modell := Item.normalizeValue row.modell,
    seriennummer := Item.normalizeValue row.seriennummer,
    einkaufsdatum := Item.normalizeValue row.einkaufsdatum,
    zuweisungsdatum := Item.normalizeValue row.zuweisungsdatum,
    aktueller_besitzer := Item.normalizeValue row.aktueller_besitzer,
    anmerkungen := Item.normalizeValue row.anmerkungen,
    stillgelegt := row.stillgelegt }

/-- `Item.with_stillgelegt_note`: ensure a deactivated record carries the
"Stillgelegt" marker in its notes. -/
def Item.withStillgelegtNote (self : Item) : Item :=
  if self.stillgelegt = false then self
  else
    let note := self.anmerkungen.getD ""
    if pyIn "stillgelegt" (pyLower note) then
      -- Python: `return self if note == self.anmerkungen else self.copy(anmerkungen=note)`
      if self.anmerkungen = some note then self
      else { self with anmerkungen := some note }
    else
      let noteStripped := pyStrip note
      if noteStripped ≠ "" then
        let separator := if pyEndsWith note "\n" = false then "\n" else ""
        { self with anmerkungen := some (note ++ separator ++ "Stillgelegt") }
      else
        { self with anmerkungen := some "Stillgelegt" }

example : (({ Item.default with
    stillgelegt := true
    anmerkungen := some "abc" }).withStillgelegtNote).anmerkungen
    = some "abc\nStillgelegt" := by decide

example : (({ Item.default with
    stillgelegt := true
    anmerkungen := some " " }).withStillgelegtNote).anmerkungen
    = some "Stillgelegt" := by decide

example : (({ Item.default with
    stillgelegt := true
    anmerkungen := some "war stillGELEGT gewesen" }).withStillgelegtNote).anmerkungen
    = some "war stillGELEGT gewesen" := by decide

/-! ## Marker removal (`ItemDialog._remove_stillgelegt_note`,
`inventar/ui/item_dialog.py`) -/

/-- Python line-boundary characters recognised by `str.splitlines`. -/
def lineBreakChar (c : Char) : Bool :=
  c = '\n' || c = '\r' || c = '\x0b' || c = '\x0c' ||
  c = '\x1c' || c = '\x1d' || c = '\x1e' || c = '\x85' ||
  c = '\u2028' || c = '\u2029'

/-- Scanner for `str.splitlines()`: `prevCR` records whether the previous
character was a `'\r'` whose boundary has already been emitted (so a
directly following `'\n'` is part of the same `"\r\n"` boundary), `acc`
holds the current line reversed. -/
def splitlinesGo : Bool → List Char → List Char → List (List Char)
  | _, acc, [] => if acc.isEmpty then [] else [acc.reverse]
  | prevCR, acc, c :: rest =>
    if prevCR && c = '\n' then splitlinesGo false acc rest
    else if lineBreakChar c then acc.reverse :: splitlinesGo (c = '\r') [] rest
    else splitlinesGo false (c :: acc) rest

/-- Python `str.splitlines()` (keepends=False): split at line boundaries,
treating `"\r\n"` as a single boundary; a trailing boundary produces no
trailing empty line. -/
def splitlines (l : List Char) : List (List Char) := splitlinesGo false [] l

/-- Python `'\n'.join(lines)`. -/
def joinLF : List (List Char) → List Char
  | [] => []
  | [l] => l
  | l :: ls => l ++ '\n' :: joinLF ls

/-- `ItemDialog._remove_stillgelegt_note` applied to the notes text:
drop every line whose stripped, lowercased form equals `"stillgelegt"`,
rejoin with `'\n'`, and strip trailing whitespace from the result. -/
def removeStillgelegtNote (text : String) : String :=
  if text = "" then text
  else
    let lines := splitlines text.data
    let filtered := lines.filter
      (fun line => decide (¬ (pyStripList line).map pyLowerChar = "stillgelegt".data))
    ⟨pyRstripList (joinLF filtered)⟩

example : removeStillgelegtNote "abc \nStillgelegt" = "abc" := by decide
example : removeStillgelegtNote "a\nSTILLGELEGT \nb" = "a\nb" := by decide

/-! ## Filters (query engine shared by both backends) -/

/-- The per-field filter keys accepted by both backends (`allowed_keys`). -/
inductive FieldKey
  | objekttyp | hersteller | modell | seriennummer
  | einkaufsdatum | zuweisungsdatum | aktueller_besitzer | anmerkungen
deriving DecidableEq, Repr

/-- The fixed order of `allowed_keys` in both repositories. -/
def fieldKeys : List FieldKey :=
  [.objekttyp, .hersteller, .modell, .seriennummer,
   .einkaufsdatum, .zuweisungsdatum, .aktueller_besitzer, .anmerkungen]

/-- Read the textual field named by a key from an `Item`. -/
def itemField (i : Item) : FieldKey → Option String
  | .objekttyp => i.objekttyp
  | .hersteller => i.hersteller
  | .modell => i.modell
  | .seriennummer => i.seriennummer
  | .einkaufsdatum => i.einkaufsdatum
  | .zuweisungsdatum => i.zuweisungsdatum
  | .aktueller_besitzer => i.aktueller_besitzer
  | .anmerkungen => i.anmerkungen

/-- A filter mapping: optional search text per allowed field plus the
reserved `__global__` key. -/
structure Filters where
  objekttyp : Option String
  hersteller : Option String
  modell : Option String
  seriennummer : Option String
  einkaufsdatum : Option String
  zuweisungsdatum : Option String
  aktueller_besitzer : Option String
  anmerkungen : Option String
  globalSearch : Option String
deriving DecidableEq, Repr

/-- Look up the filter value stored for a field key. -/
def Filters.get (f : Filters) : FieldKey → Option String
  | .objekttyp => f.objekttyp
  | .hersteller => f.hersteller
  | .modell => f.modell
  | .seriennummer => f.seriennummer
  | .einkaufsdatum => f.einkaufsdatum
  | .zuweisungsdatum => f.zuweisungsdatum
  | .aktueller_besitzer => f.aktueller_besitzer
  | .anmerkungen => f.anmerkungen

/-- The empty filter mapping. -/
def Filters.empty : Filters :=
  { objekttyp := none, hersteller := none, modell := none, seriennummer := none,
    einkaufsdatum := none, zuweisungsdatum := none, aktueller_besitzer := none,
    anmerkungen := none, globalSearch := none }

/-- `F1 ⊆ F2` as sets of `field:value` pairs. -/
def Filters.Subset (f1 f2 : Filters) : Prop :=
  (f1.objekttyp = none ∨ f1.objekttyp = f2.objekttyp) ∧
  (f1.hersteller = none ∨ f1.hersteller = f2.hersteller) ∧
  (f1.modell = none ∨ f1.modell = f2.modell) ∧
  (f1.seriennummer = none ∨ f1.seriennummer = f2.seriennummer) ∧
  (f1.einkaufsdatum = none ∨ f1.einkaufsdatum = f2.einkaufsdatum) ∧
  (f1.zuweisungsdatum = none ∨ f1.zuweisungsdatum = f2.zuweisungsdatum) ∧
  (f1.aktueller_besitzer = none ∨ f1.aktueller_besitzer = f2.aktueller_besitzer) ∧
  (f1.anmerkungen = none ∨ f1.anmerkungen = f2.anmerkungen) ∧
  (f1.globalSearch = none ∨ f1.globalSearch = f2.globalSearch)

instance (f1 f2 : Filters) : Decidable (Filters.Subset f1 f2) := by
  unfold Filters.Subset; infer_instance

/-! ## Stable sorting

Python's `sorted` and the SQLite `ORDER BY` over a table scan are stable
sorts; a stable sort w.r.t. a total preorder has a unique result, so the
structurally recursive stable insertion sort below models both. -/

/-- Insert `a` after every element strictly below it, before the first
element not strictly below it (ties keep the existing element of the
sorted run before the element being inserted, which makes the sort
stable when elements are inserted front to back). -/
def insertLE (le : α → α → Bool) (a : α) : List α → List α
  | [] => [a]
  | b :: l => if le b a && !le a b then b :: insertLE le a l else a :: b :: l

/-- Stable insertion sort by a boolean total preorder. -/
def stableSort (le : α → α → Bool) : List α → List α
  | [] => []
  | a :: l => insertLE le a (stableSort le l)

theorem insertLE_perm (le : α → α → Bool) (a : α) (l : List α) :
    List.Perm (insertLE le a l) (a :: l) := by
  induction l with
  | nil => simp [insertLE]
  | cons b t ih =>
    simp only [insertLE]
    split
    · exact (ih.cons b).trans (List.Perm.swap a b t)
    · exact List.Perm.refl _

theorem stableSort_perm (le : α → α → Bool) (l : List α) :
    List.Perm (stableSort le l) l := by
  induction l with
  | nil => simp [stableSort]
  | cons a t ih => exact (insertLE_perm le a (stableSort le t)).trans (ih.cons a)

theorem mem_stableSort (le : α → α → Bool) (l : List α) (x : α) :
    x ∈ stableSort le l ↔ x ∈ l :=
  (stableSort_perm le l).mem_iff

theorem pairwise_insertLE (le : α → α → Bool)
    (htrans : ∀ a b c, le a b = true → le b c = true → le a c = true)
    (htotal : ∀ a b, le a b = true ∨ le b a = true) (a : α) (l : List α)
    (h : l.Pairwise (fun x y => le x y = true)) :
    (insertLE le a l).Pairwise (fun x y => le x y = true) := by
  induction l with
  | nil => simp [insertLE]
  | cons b t ih =>
    rcases List.pairwise_cons.mp h with ⟨hb, ht⟩
    simp only [insertLE]
    by_cases hcond : (le b a && !le a b) = true
    · rw [if_pos hcond]
      refine List.pairwise_cons.mpr ⟨?_, ih ht⟩
      intro y hy
      rcases List.mem_cons.mp ((insertLE_perm le a t).mem_iff.mp hy) with hya | hyt
      · have hba : le b a = true := by
          have := hcond
          simp only [Bool.and_eq_true] at this
          exact this.1
        exact hya ▸ hba
      · exact hb y hyt
    · rw [if_neg hcond]
      have hab : le a b = true := by
        rcases htotal a b with h1 | h1
        · exact h1
        · cases h2 : le a b with
          | true => rfl
          | false => exact absurd (by rw [h1, h2]; rfl) hcond
      refine List.pairwise_cons.mpr ⟨?_, h⟩
      intro y hy
      rcases List.mem_cons.mp hy with hyb | hyt
      · exact hyb ▸ hab
      · exact htrans a b y hab (hb y hyt)

theorem sorted_stableSort (le : α → α → Bool)
    (htrans : ∀ a b c, le a b = true → le b c = true → le a c = true)
    (htotal : ∀ a b, le a b = true ∨ le b a = true) (l : List α) :
    (stableSort le l).Pairwise (fun x y => le x y = true) := by
  induction l with
  | nil => simp [stableSort]
  | cons a t ih => exact pairwise_insertLE le htrans htotal a (stableSort le t) ih

theorem map_insertLE (le : α → α → Bool) (le' : β → β → Bool) (f : α → β) (a : α)
    (l : List α)
    (hcmp : ∀ x ∈ l, le x a = le' (f x) (f a) ∧ le a x = le' (f a) (f x)) :
    (insertLE le a l).map f = insertLE le' (f a) (l.map f) := by
  induction l with
  | nil => simp [insertLE]
  | cons b t ih =>
    have hbt := hcmp b (List.mem_cons_self b t)
    have ht : ∀ x ∈ t, le x a = le' (f x) (f a) ∧ le a x = le' (f a) (f x) :=
      fun x hx => hcmp x (List.mem_cons_of_mem b hx)
    simp only [insertLE, List.map_cons, ← hbt.1, ← hbt.2]
    split
    · simp only [List.map_cons, ih ht]
    · simp only [List.map_cons]

theorem map_stableSort (le : α → α → Bool) (le' : β → β → Bool) (f : α → β)
    (l : List α) (hcmp : ∀ x ∈ l, ∀ y ∈ l, le x y = le' (f x) (f y)) :
    (stableSort le l).map f = stableSort le' (l.map f) := by
  induction l with
  | nil => simp [stableSort]
  | cons a t ih =>
    have ht : ∀ x ∈ t, ∀ y ∈ t, le x y = le' (f x) (f y) := fun x hx y hy =>
      hcmp x (List.mem_cons_of_mem a hx) y (List.mem_cons_of_mem a hy)
    simp only [stableSort, List.map_cons]
    rw [← ih ht]
    refine map_insertLE le le' f a (stableSort le t) ?_
    intro x hx
    have hxt : x ∈ t := (mem_stableSort le t x).mp hx
    exact ⟨hcmp x (List.mem_cons_of_mem a hxt) a (List.mem_cons_self a t),
      hcmp a (List.mem_cons_self a t) x (List.mem_cons_of_mem a hxt)⟩

/-! ## Repository errors (`inventar/data/repository.py`) -/

/-- `RepositoryError` outcomes relevant to the modelled operations. -/
inductive RepoError
  | notFound
deriving DecidableEq, Repr

deriving instance DecidableEq for Except

/-! ## JSON fallback backend (`inventar/data/json_repo.py`) -/

/-- In-memory state of `JSONRepository` (the document persisted by
`_save`): the item list and the custom-values map. -/
structure JsonState where
  items : List Item
  custom_values : List (String × List String)
deriving DecidableEq, Repr

/-- A freshly initialised store (no pre-existing file). -/
def emptyJson : JsonState := { items := [], custom_values := [] }

/-- `JSONRepository._next_id`: `max((item.id or 0), default=0) + 1`. -/
def jsonNextId (s : JsonState) : Nat :=
  (s.items.map (fun i => i.id.getD 0)).foldr max 0 + 1

/-- One step of `_ensure_stillgelegt_notes`: replace the item by its
reconciled version only when the notes actually changed. -/
def reconcileItem (i : Item) : Item :=
  let u := i.withStillgelegtNote
  if u.anmerkungen ≠ i.anmerkungen then u else i

/-- `JSONRepository._ensure_stillgelegt_notes` (the lazy repair performed
at the start of `list`). -/
def jsonEnsureNotes (s : JsonState) : JsonState :=
  { s with items := s.items.map reconcileItem }

/-- Lexicographic (code-point) strict comparison of character lists:
the order Python uses on `str` and SQLite's `memcmp` byte order on
UTF-8 text (UTF-8 preserves code-point order). -/
def listLexLT : List Char → List Char → Bool
  | [], [] => false
  | [], _ :: _ => true
  | _ :: _, [] => false
  | a :: as, b :: bs => if a = b then listLexLT as bs else decide (a < b)

/-- Lexicographic (code-point) comparison, allowing equality. -/
def listLexLE : List Char → List Char → Bool
  | [], _ => true
  | _ :: _, [] => false
  | a :: as, b :: bs => if a = b then listLexLE as bs else decide (a < b)

/-- String `<` (code-point lexicographic). -/
def strLT (s t : String) : Bool := listLexLT s.data t.data

/-- String `≤` (code-point lexicographic). -/
def strLE (s t : String) : Bool := listLexLE s.data t.data

/-- The sort key of `_sorted_items`: `((objekttyp or '').lower(), (modell or '').lower())`. -/
def itemSortKey (i : Item) : String × String :=
  (pyLower (i.objekttyp.getD ""), pyLower (i.modell.getD ""))

/-- Lexicographic comparison of items by `itemSortKey` (the order used by
Python's stable `sorted`). -/
def itemLE (a b : Item) : Bool :=
  if (itemSortKey a).1 = (itemSortKey b).1
  then strLE (itemSortKey a).2 (itemSortKey b).2
  else strLT (itemSortKey a).1 (itemSortKey b).1

/-- `JSONRepository._sorted_items`: stable sort by the case-insensitive
`(objekttyp, modell)` key. -/
def sortedItems (items : List Item) : List Item := stableSort itemLE items

/-- Per-field substring match of `JSONRepository.list`:
`value.lower() in str(getattr(item, key, '')).lower()` (note:
`str(None) = "None"`). -/
def jsonMatchesField (i : Item) (k : FieldKey) (v : String) : Bool :=
  pyIn (pyLower v) (pyLower (pyStrOfOpt (itemField i k)))

/-- The successive per-field filtering passes of `JSONRepository.list`
(a filter with empty/absent value is skipped). -/
def jsonApplyFieldFilters (f : Filters) (items : List Item) : List Item :=
  fieldKeys.foldl (fun acc k =>
    match f.get k with
    | none => acc
    | some v => if v = "" then acc else acc.filter (fun i => jsonMatchesField i k v)) items

/-- `matches_any_field` of the global search. -/
def jsonMatchesGlobal (i : Item) (v : String) : Bool :=
  fieldKeys.any (fun k => pyIn (pyLower v) (pyLower (pyStrOfOpt (itemField i k))))

/-- The global-search pass of `JSONRepository.list` (skipped when falsy). -/
def jsonApplyGlobal (f : Filters) (items : List Item) : List Item :=
  match f.globalSearch with
  | none => items
  | some v => if v = "" then items else items.filter (fun i => jsonMatchesGlobal i v)

/-- The list returned by `JSONRepository.list(filters)`. -/
def jsonListResult (s : JsonState) (filters : Option Filters) : List Item :=
  let s := jsonEnsureNotes s
  match filters with
  | none => sortedItems (s.items.map Item.withStillgelegtNote)
  | some f =>
    let filtered := jsonApplyGlobal f (jsonApplyFieldFilters f s.items)
    sortedItems (filtered.map Item.withStillgelegtNote)

/-- `JSONRepository.create`. -/
def jsonCreate (s : JsonState) (item : Item) : Item × JsonState :=
  let item := item.withStillgelegtNote
  let newItem := { item with id := some (jsonNextId s) }
  (newItem, { s with items := s.items ++ [newItem] })

/-- Replace the first item with the given id (the loop in
`JSONRepository.update`); `none` when no item has the id. -/
def replaceFirstById (newItem : Item) (itemId : Nat) : List Item → Option (List Item)
  | [] => none
  | x :: xs =>
    if x.id = some itemId then some (newItem :: xs)
    else match replaceFirstById newItem itemId xs with
      | none => none
      | some ys => some (x :: ys)

/-- `JSONRepository.update`: raises `RepositoryError` when no item has
the requested id. -/
def jsonUpdate (s : JsonState) (itemId : Nat) (item : Item) :
    Except RepoError (Item × JsonState) :=
  let item := item.withStillgelegtNote
  let stored := { item with id := some itemId }
  match replaceFirstById stored itemId s.items with
  | some items' => .ok (stored, { s with items := items' })
  | none => .error .notFound

/-- `JSONRepository.delete`: keep every item whose id differs (no-op when
absent). -/
def jsonDelete (s : JsonState) (itemId : Nat) : JsonState :=
  { s with items := s.items.filter (fun i => decide (i.id ≠ some itemId)) }

/-- The loop of `JSONRepository.deactivate`: deactivate the first item
with the given id in place. -/
def deactivateFirstById (itemId : Nat) : List Item → Option (Item × List Item)
  | [] => none
  | x :: xs =>
    if x.id = some itemId then
      let updated := ({ x with stillgelegt := true }).withStillgelegtNote
      some (updated, updated :: xs)
    else match deactivateFirstById itemId xs with
      | none => none
      | some (u, ys) => some (u, x :: ys)

/-- `JSONRepository.deactivate`. -/
def jsonDeactivate (s : JsonState) (itemId : Nat) :
    Except RepoError (Item × JsonState) :=
  match deactivateFirstById itemId s.items with
  | some (u, items') => .ok (u, { s with items := items' })
  | none => .error .notFound

/-- `DEFAULT_OWNER` from `inventar/utils/constants.py`. -/
def DEFAULT_OWNER : String := "LAGER"

/-- `JSONRepository.clear_owner`: refuse empty or default owner, else
reset every exact match to the default owner and count them. -/
def jsonClearOwner (s : JsonState) (owner : String) : Nat × JsonState :=
  let owner := pyStrip owner
  if owner = "" || pyLower owner = pyLower DEFAULT_OWNER then (0, s)
  else
    let n := (s.items.filter (fun i => i.aktueller_besitzer = some owner)).length
    let items' := s.items.map (fun i =>
      if i.aktueller_besitzer = some owner
      then { i with aktueller_besitzer := some DEFAULT_OWNER } else i)
    (n, { s with items := items' })

/-! ## SQLite backend (`inventar/data/sqlite_repo.py`) -/

/-- One row of the `items` table (column order of the schema). -/
structure Row where
  id : Nat
  objekttyp : Option String
  hersteller : Option String
  modell : Option String
  seriennummer : Option String
  einkaufsdatum : Option String
  zuweisungsdatum : Option String
  aktueller_besitzer : Option String
  anmerkungen : Option String
  stillgelegt : Bool
deriving DecidableEq, Repr

/-- State of an initialised `SQLiteRepository`: the `items` table in
rowid scan order, the `AUTOINCREMENT` sequence (largest id ever
assigned, never reused), and the `custom_values` side table. -/
structure SqliteState where
  rows : List Row
  seq : Nat
  custom_values : List (String × String)
deriving DecidableEq, Repr

/-- A freshly initialised empty database. -/
def emptySqlite : SqliteState := { rows := [], seq := 0, custom_values := [] }

/-- `SQLiteRepository._db_value`: `None` passes through; other values are
stripped and empty results become `NULL`. -/
def dbValue : Option String → Option String
  | none => none
  | some v => let text := pyStrip v; if text = "" then none else some text

/-- The row written by the `INSERT` of `SQLiteRepository.create`
(every textual column through `_db_value`). -/
def itemToRow (rowId : Nat) (item : Item) : Row :=
  { id := rowId,
    objekttyp := dbValue item.objekttyp,
    hersteller := dbValue item.hersteller,
    modell := dbValue item.modell,
    seriennummer := dbValue item.seriennummer,
    einkaufsdatum := dbValue item.einkaufsdatum,
    zuweisungsdatum := dbValue item.zuweisungsdatum,
    aktueller_besitzer := dbValue item.aktueller_besitzer,
    anmerkungen := dbValue item.anmerkungen,
    stillgelegt := item.stillgelegt }

/-- `Item.from_row` on a fetched database row (positional branch:
`_normalize` on every textual column, `bool()` on the flag). -/
def Item.fromDbRow (r : Row) : Item :=
  { id := some r.id,
    objekttyp := Item.normalizeValue r.objekttyp,
    hersteller := Item.normalizeValue r.hersteller,
    modell := Item.normalizeValue r.modell,
    seriennummer := Item.normalizeValue r.seriennummer,
    einkaufsdatum := Item.normalizeValue r.einkaufsdatum,
    zuweisungsdatum := Item.normalizeValue r.zuweisungsdatum,
    aktueller_besitzer := Item.normalizeValue r.aktueller_besitzer,
    anmerkungen := Item.normalizeValue r.anmerkungen,
    stillgelegt := r.stillgelegt }

/-- Read the column named by a field key from a row. -/
def rowField (r : Row) : FieldKey → Option String
  | .objekttyp => r.objekttyp
  | .hersteller => r.hersteller
  | .modell => r.modell
  | .seriennummer => r.seriennummer
  | .einkaufsdatum => r.einkaufsdatum
  | .zuweisungsdatum => r.zuweisungsdatum
  | .aktueller_besitzer => r.aktueller_besitzer
  | .anmerkungen => r.anmerkungen

/-- `column LIKE '%v%'`: substring match on the stored value,
case-insensitive in SQLite's ASCII-only sense; `NULL` never matches. -/
def likeMatch (v : String) (col : Option String) : Bool :=
  match col with
  | none => false
  | some s => pyIn (nocaseFold v) (nocaseFold s)

/-- The conjunction of the per-field `LIKE` conditions of
`SQLiteRepository.list` (absent or empty filter values are skipped). -/
def sqliteFieldCond (f : Filters) (r : Row) : Bool :=
  fieldKeys.all (fun k =>
    match f.get k with
    | none => true
    | some v => if v = "" then true else likeMatch v (rowField r k))

/-- The global-search `OR` block of `SQLiteRepository.list`. -/
def sqliteGlobalCond (f : Filters) (r : Row) : Bool :=
  match f.globalSearch with
  | none => true
  | some v =>
    if v = "" then true
    else fieldKeys.any (fun k => likeMatch v (rowField r k))

/-- `COLLATE NOCASE` comparison of one column pair: `NULL` sorts first,
text compares by its ASCII-only `NOCASE`-folded form. -/
def nocaseLE (a b : Option String) : Bool :=
  match a, b with
  | none, _ => true
  | some _, none => false
  | some x, some y => strLE (nocaseFold x) (nocaseFold y)

/-- `ORDER BY objekttyp COLLATE NOCASE, modell COLLATE NOCASE`. -/
def rowLE (a b : Row) : Bool :=
  if a.objekttyp.map nocaseFold = b.objekttyp.map nocaseFold
  then nocaseLE a.modell b.modell
  else nocaseLE a.objekttyp b.objekttyp

/-- The two columns entering the `ORDER BY` / sort key hold ASCII text
(on such text the `NOCASE` fold coincides with Python's `str.lower`). -/
def rowKeyAscii (r : Row) : Bool := asciiOpt r.objekttyp && asciiOpt r.modell

/-- The list returned by `SQLiteRepository.list(filters)`: filter, order,
convert each row through `from_row` and reconcile its marker. -/
def sqliteListResult (s : SqliteState) (filters : Option Filters) : List Item :=
  let matched := match filters with
    | none => s.rows
    | some f => s.rows.filter (fun r => sqliteFieldCond f r && sqliteGlobalCond f r)
  (stableSort rowLE matched).map (fun r => (Item.fromDbRow r).withStillgelegtNote)

/-- `SQLiteRepository.create`: the input id is never read; the row gets
the next `AUTOINCREMENT` id and the reconciled record is returned with
that id.  No other table is touched. -/
def sqliteCreate (s : SqliteState) (item : Item) : Item × SqliteState :=
  let item := item.withStillgelegtNote
  let newId := s.seq + 1
  ({ item with id := some newId },
   { s with rows := s.rows ++ [itemToRow newId item], seq := newId })

/-- The column assignments of the `UPDATE` statement in
`SQLiteRepository.update`. -/
def updateRowFields (item : Item) (r : Row) : Row :=
  { r with
    objekttyp := dbValue item.objekttyp,
    hersteller := dbValue item.hersteller,
    modell := dbValue item.modell,
    seriennummer := dbValue item.seriennummer,
    einkaufsdatum := dbValue item.einkaufsdatum,
    zuweisungsdatum := dbValue item.zuweisungsdatum,
    aktueller_besitzer := dbValue item.aktueller_besitzer,
    anmerkungen := dbValue item.anmerkungen,
    stillgelegt := item.stillgelegt }

/-- `SQLiteRepository.update`: runs the `UPDATE ... WHERE id = ?` and
returns the record with the requested id.  The affected row count is
never inspected, so the call succeeds even when no row has the id. -/
def sqliteUpdate (s : SqliteState) (itemId : Nat) (item : Item) :
    Except RepoError (Item × SqliteState) :=
  let item := item.withStillgelegtNote
  let rows' := s.rows.map (fun r => if r.id = itemId then updateRowFields item r else r)
  .ok ({ item with id := some itemId }, { s with rows := rows' })

/-- `SQLiteRepository.delete` (`DELETE FROM items WHERE id = ?`). -/
def sqliteDelete (s : SqliteState) (itemId : Nat) : SqliteState :=
  { s with rows := s.rows.filter (fun r => decide (r.id ≠ itemId)) }

/-- `SQLiteRepository.get`. -/
def sqliteGet (s : SqliteState) (itemId : Nat) : Option Item :=
  match s.rows.find? (fun r => r.id = itemId) with
  | some r => some ((Item.fromDbRow r).withStillgelegtNote)
  | none => none

/-- `SQLiteRepository.deactivate`: fetch, raise `NotFound` when absent,
otherwise reconcile and persist flag and notes. -/
def sqliteDeactivate (s : SqliteState) (itemId : Nat) :
    Except RepoError (Item × SqliteState) :=
  match sqliteGet s itemId with
  | none => .error .notFound
  | some item =>
    let updated := ({ item with stillgelegt := true }).withStillgelegtNote
    let rows' := s.rows.map (fun r =>
      if r.id = itemId
      then { r with stillgelegt := true, anmerkungen := updated.anmerkungen }
      else r)
    .ok (updated, { s with rows := rows' })

/-- `SQLiteRepository.clear_owner`: refuse the default owner, otherwise
set every exact match to the default owner, returning the row count. -/
def sqliteClearOwner (s : SqliteState) (owner : String) : Nat × SqliteState :=
  if pyLower (pyStrip owner) = pyLower DEFAULT_OWNER then (0, s)
  else
    let n := (s.rows.filter (fun r => r.aktueller_besitzer = some owner)).length
    let rows' := s.rows.map (fun r =>
      if r.aktueller_besitzer = some owner
      then { r with aktueller_besitzer := some DEFAULT_OWNER } else r)
    (n, { s with rows := rows' })

/-! ## Replay of call sequences (for backend parity) -/

/-- One mutating repository call. -/
inductive Op
  | create (item : Item)
  | update (itemId : Nat) (item : Item)
  | delete (itemId : Nat)
  | deactivate (itemId : Nat)
deriving DecidableEq, Repr

/-- Apply one call to the JSON backend (a raised `NotFound` leaves the
store unchanged). -/
def jsonApplyOp (s : JsonState) : Op → JsonState
  | .create i => (jsonCreate s i).2
  | .update itemId i =>
    match jsonUpdate s itemId i with
    | .ok (_, s') => s'
    | .error _ => s
  | .delete itemId => jsonDelete s itemId
  | .deactivate itemId =>
    match jsonDeactivate s itemId with
    | .ok (_, s') => s'
    | .error _ => s

/-- Apply one call to the SQLite backend. -/
def sqliteApplyOp (s : SqliteState) : Op → SqliteState
  | .create i => (sqliteCreate s i).2
  | .update itemId i =>
    match sqliteUpdate s itemId i with
    | .ok (_, s') => s'
    | .error _ => s
  | .delete itemId => sqliteDelete s itemId
  | .deactivate itemId =>
    match sqliteDeactivate s itemId with
    | .ok (_, s') => s'
    | .error _ => s

/-- Replay a call sequence against an empty JSON store. -/
def jsonReplay (ops : List Op) : JsonState := ops.foldl jsonApplyOp emptyJson

/-- Replay a call sequence against an empty SQLite store. -/
def sqliteReplay (ops : List Op) : SqliteState := ops.foldl sqliteApplyOp emptySqlite

/-! ## Lemmas about the string primitives -/

theorem subListOf_iff (needle hay : List Char) :
    subListOf needle hay = true ↔ needle <:+: hay := by
  induction hay with
  | nil => simp [subListOf]
  | cons c t ih =>
    simp only [subListOf, Bool.or_eq_true, List.isPrefixOf_iff_prefix, ih,
      List.infix_cons_iff]

theorem pyIn_marker_append (x : String) :
    pyIn "stillgelegt" (pyLower (x ++ "Stillgelegt")) = true := by
  refine (subListOf_iff _ _).mpr ?_
  show "stillgelegt".data <:+: ((x ++ "Stillgelegt").data.map pyLowerChar)
  rw [String.data_append, List.map_append]
  have h : "Stillgelegt".data.map pyLowerChar = "stillgelegt".data := by decide
  rw [h]
  exact (List.suffix_append _ _).isInfix

/-! ## Lemmas about `with_stillgelegt_note` -/

theorem withNote_of_inactive (r : Item) (h : r.stillgelegt = false) :
    r.withStillgelegtNote = r := by
  simp [Item.withStillgelegtNote, h]

theorem withNote_of_marker (r : Item) (h : r.stillgelegt = true)
    (hm : pyIn "stillgelegt" (pyLower (r.anmerkungen.getD "")) = true) :
    r.withStillgelegtNote = r := by
  cases ha : r.anmerkungen with
  | none =>
    rw [ha] at hm
    simp only [Option.getD_none] at hm
    exact absurd hm (by decide)
  | some s =>
    rw [ha] at hm
    simp only [Option.getD_some] at hm
    simp [Item.withStillgelegtNote, h, ha, hm]

theorem withNote_eq_copy (r : Item) :
    ∃ a, r.withStillgelegtNote = { r with anmerkungen := a } := by
  simp only [Item.withStillgelegtNote]
  split
  · exact ⟨r.anmerkungen, rfl⟩
  · split
    · split
      · exact ⟨r.anmerkungen, rfl⟩
      · exact ⟨_, rfl⟩
    · split
      · exact ⟨_, rfl⟩
      · exact ⟨_, rfl⟩

/-- The note produced by the append branch of `with_stillgelegt_note`:
the marker on a new line, with a separator only when the note does not
already end in one. -/
def appendMarker (note : String) : String :=
  note ++ (if pyEndsWith note "\n" = false then "\n" else "") ++ "Stillgelegt"

theorem withNote_append_shape (r : Item) (h : r.stillgelegt = true)
    (hm : pyIn "stillgelegt" (pyLower (r.anmerkungen.getD "")) = false) :
    (pyStrip (r.anmerkungen.getD "") ≠ "" ∧
      r.withStillgelegtNote = { r with anmerkungen := some (appendMarker (r.anmerkungen.getD "")) })
    ∨ (pyStrip (r.anmerkungen.getD "") = "" ∧
      r.withStillgelegtNote = { r with anmerkungen := some "Stillgelegt" }) := by
  simp only [Item.withStillgelegtNote, h, Bool.true_eq_false, if_false, hm,
    Bool.false_eq_true, appendMarker]
  by_cases hstrip : pyStrip (r.anmerkungen.getD "") = ""
  · right
    exact ⟨hstrip, by simp [hstrip]⟩
  · left
    exact ⟨hstrip, by simp [hstrip]⟩

theorem withNote_marker_after (r : Item) (h : r.stillgelegt = true) :
    pyIn "stillgelegt" (pyLower ((r.withStillgelegtNote).anmerkungen.getD "")) = true := by
  by_cases hm : pyIn "stillgelegt" (pyLower (r.anmerkungen.getD "")) = true
  · rw [withNote_of_marker r h hm]; exact hm
  · have hm' : pyIn "stillgelegt" (pyLower (r.anmerkungen.getD "")) = false := by
      simpa using hm
    rcases withNote_append_shape r h hm' with ⟨_, heq⟩ | ⟨_, heq⟩
    · rw [heq]
      simpa [appendMarker] using pyIn_marker_append
        ((r.anmerkungen.getD "") ++
          (if pyEndsWith (r.anmerkungen.getD "") "\n" = false then "\n" else ""))
    · rw [heq]
      simpa using pyIn_marker_append ""

theorem withNote_stillgelegt (r : Item) :
    (r.withStillgelegtNote).stillgelegt = r.stillgelegt := by
  obtain ⟨a, ha⟩ := withNote_eq_copy r
  rw [ha]

theorem withNote_idem (r : Item) :
    r.withStillgelegtNote.withStillgelegtNote = r.withStillgelegtNote := by
  by_cases h : r.stillgelegt = true
  · have hs : (r.withStillgelegtNote).stillgelegt = true := by
      rw [withNote_stillgelegt]; exact h
    exact withNote_of_marker _ hs (withNote_marker_after r h)
  · have hf : r.stillgelegt = false := by simpa using h
    rw [withNote_of_inactive r hf, withNote_of_inactive r hf]

/-! ## Normalized values (the §3 Record invariant: textual fields are
trimmed, empty strings become `None`) -/

/-- A stored optional string is normalized when it is absent or a
nonempty strip-fixpoint. -/
def normStr : Option String → Bool
  | none => true
  | some s => decide (pyStrip s = s) && decide (s ≠ "")

/-- All eight textual fields of an item are normalized. -/
def Item.isNormalized (i : Item) : Bool :=
  normStr i.objekttyp && normStr i.hersteller && normStr i.modell &&
  normStr i.seriennummer && normStr i.einkaufsdatum && normStr i.zuweisungsdatum &&
  normStr i.aktueller_besitzer && normStr i.anmerkungen

/-- All eight textual columns of a database row are normalized. -/
def rowNormalized (r : Row) : Bool :=
  normStr r.objekttyp && normStr r.hersteller && normStr r.modell &&
  normStr r.seriennummer && normStr r.einkaufsdatum && normStr r.zuweisungsdatum &&
  normStr r.aktueller_besitzer && normStr r.anmerkungen

theorem normalizeValue_of_norm (v : Option String) (h : normStr v = true) :
    Item.normalizeValue v = v := by
  cases v with
  | none => rfl
  | some s =>
    simp only [normStr, Bool.and_eq_true, decide_eq_true_eq] at h
    simp [Item.normalizeValue, h.1, h.2]

theorem dbValue_of_norm (v : Option String) (h : normStr v = true) :
    dbValue v = v := by
  cases v with
  | none => rfl
  | some s =>
    simp only [normStr, Bool.and_eq_true, decide_eq_true_eq] at h
    simp [dbValue, h.1, h.2]

theorem prefix_of_rstripList (l : List Char) : pyRstripList l <+: l := by
  have h1 : l.reverse.dropWhile pySpace <:+ l.reverse := List.dropWhile_suffix pySpace
  have h2 := List.reverse_prefix.mpr h1
  rwa [List.reverse_reverse] at h2

theorem stripList_parts (l : List Char) (h : pyStripList l = l) :
    l.dropWhile pySpace = l ∧ pyRstripList l = l := by
  have hsub : l.dropWhile pySpace <:+ l := List.dropWhile_suffix pySpace
  have hpre : pyRstripList (l.dropWhile pySpace) <+: l.dropWhile pySpace :=
    prefix_of_rstripList _
  have hlen1 : (pyStripList l).length ≤ (l.dropWhile pySpace).length := by
    simpa [pyStripList] using hpre.length_le
  have hlen2 : (l.dropWhile pySpace).length ≤ l.length := hsub.length_le
  have hd : l.dropWhile pySpace = l := by
    refine hsub.sublist.eq_of_length (Nat.le_antisymm hlen2 ?_)
    calc l.length = (pyStripList l).length := by rw [h]
    _ ≤ (l.dropWhile pySpace).length := hlen1
  refine ⟨hd, ?_⟩
  have : pyStripList l = pyRstripList l := by rw [pyStripList, hd]
  rw [← this, h]

theorem head_not_space_of_dropWhile_fix (c : Char) (t : List Char)
    (h : (c :: t).dropWhile pySpace = c :: t) : pySpace c = false := by
  by_contra hc
  have hc' : pySpace c = true := by simpa using hc
  rw [List.dropWhile_cons_of_pos hc'] at h
  have hlen := congrArg List.length h
  have hle := (List.dropWhile_sublist (l := t) pySpace).length_le
  simp only [List.length_cons] at hlen
  omega

theorem rstripList_append (l m : List Char) (hm : pyRstripList m = m) (hm0 : m ≠ []) :
    pyRstripList (l ++ m) = l ++ m := by
  have hrev : m.reverse.dropWhile pySpace = m.reverse := by
    have : (m.reverse.dropWhile pySpace).reverse = m := hm
    calc m.reverse.dropWhile pySpace
        = ((m.reverse.dropWhile pySpace).reverse).reverse := by rw [List.reverse_reverse]
    _ = m.reverse := by rw [this]
  obtain ⟨c, t, hct⟩ : ∃ c t, m.reverse = c :: t := by
    cases hmr : m.reverse with
    | nil => exact absurd (by simpa using congrArg List.reverse hmr) hm0
    | cons c t => exact ⟨c, t, rfl⟩
  have hc : pySpace c = false := by
    apply head_not_space_of_dropWhile_fix c t
    rw [← hct]; exact hrev
  show ((l ++ m).reverse.dropWhile pySpace).reverse = l ++ m
  rw [List.reverse_append, hct, List.cons_append,
    List.dropWhile_cons_of_neg (by simp [hc]), ← List.cons_append, ← hct,
    List.reverse_append, List.reverse_reverse, List.reverse_reverse]

theorem stripList_append (l m : List Char) (hl : pyStripList l = l) (hl0 : l ≠ [])
    (hm : pyRstripList m = m) (hm0 : m ≠ []) :
    pyStripList (l ++ m) = l ++ m := by
  obtain ⟨hd, _⟩ := stripList_parts l hl
  obtain ⟨c, t, hct⟩ : ∃ c t, l = c :: t := by
    cases l with
    | nil => exact absurd rfl hl0
    | cons c t => exact ⟨c, t, rfl⟩
  have hc : pySpace c = false := head_not_space_of_dropWhile_fix c t (hct ▸ hd)
  show pyRstripList ((l ++ m).dropWhile pySpace) = l ++ m
  rw [hct, List.cons_append, List.dropWhile_cons_of_neg (by simp [hc]),
    ← List.cons_append, ← hct]
  exact rstripList_append l m hm hm0

theorem pyStrip_eq_iff (s : String) : pyStrip s = s ↔ pyStripList s.data = s.data := by
  constructor
  · intro h
    exact congrArg String.data h
  · intro h
    cases s with
    | mk l => exact congrArg String.mk h

theorem appendMarker_norm (s : String) (hs : pyStrip s = s) (hs0 : s ≠ "") :
    normStr (some (appendMarker s)) = true := by
  have hdata : pyStripList s.data = s.data := (pyStrip_eq_iff s).mp hs
  have hd0 : s.data ≠ [] := by
    intro hnil
    exact hs0 (by cases s with | mk l => simpa using congrArg String.mk hnil)
  simp only [normStr, Bool.and_eq_true, decide_eq_true_eq]
  constructor
  · rw [pyStrip_eq_iff]
    unfold appendMarker
    by_cases he : pyEndsWith s "\n" = false
    · rw [if_pos he]
      have : (s ++ "\n" ++ "Stillgelegt").data = s.data ++ ('\n' :: "Stillgelegt".data) := by
        simp [String.data_append]
      rw [this]
      exact stripList_append _ _ hdata hd0 (by decide) (by decide)
    · rw [if_neg he]
      have : (s ++ "" ++ "Stillgelegt").data = s.data ++ "Stillgelegt".data := by
        simp [String.data_append]
      rw [this]
      exact stripList_append _ _ hdata hd0 (by decide) (by decide)
  · intro hcon
    have := congrArg String.data hcon
    unfold appendMarker at this
    by_cases he : pyEndsWith s "\n" = false
    · rw [if_pos he] at this
      simp [String.data_append] at this
    · rw [if_neg he] at this
      simp [String.data_append] at this

theorem withNote_normStr (r : Item) (h : normStr r.anmerkungen = true) :
    normStr (r.withStillgelegtNote).anmerkungen = true := by
  by_cases hst : r.stillgelegt = true
  · by_cases hm : pyIn "stillgelegt" (pyLower (r.anmerkungen.getD "")) = true
    · rw [withNote_of_marker r hst hm]; exact h
    · have hm' : pyIn "stillgelegt" (pyLower (r.anmerkungen.getD "")) = false := by
        simpa using hm
      rcases withNote_append_shape r hst hm' with ⟨hne, heq⟩ | ⟨_, heq⟩
      · rw [heq]
        dsimp only
        cases ha : r.anmerkungen with
        | none =>
          rw [ha] at hne
          exact absurd (by decide : pyStrip ((none : Option String).getD "") = "") hne
        | some s =>
          rw [ha] at h
          simp only [normStr, Bool.and_eq_true, decide_eq_true_eq] at h
          simp only [Option.getD_some]
          simpa using appendMarker_norm s h.1 h.2
      · rw [heq]
        dsimp only
        decide
  · have hf : r.stillgelegt = false := by simpa using hst
    rw [withNote_of_inactive r hf]; exact h

theorem Item.isNormalized_iff (i : Item) : i.isNormalized = true ↔
    normStr i.objekttyp = true ∧ normStr i.hersteller = true ∧
    normStr i.modell = true ∧ normStr i.seriennummer = true ∧
    normStr i.einkaufsdatum = true ∧ normStr i.zuweisungsdatum = true ∧
    normStr i.aktueller_besitzer = true ∧ normStr i.anmerkungen = true := by
  simp [Item.isNormalized, Bool.and_eq_true, and_assoc]

theorem rowNormalized_iff (r : Row) : rowNormalized r = true ↔
    normStr r.objekttyp = true ∧ normStr r.hersteller = true ∧
    normStr r.modell = true ∧ normStr r.seriennummer = true ∧
    normStr r.einkaufsdatum = true ∧ normStr r.zuweisungsdatum = true ∧
    normStr r.aktueller_besitzer = true ∧ normStr r.anmerkungen = true := by
  simp [rowNormalized, Bool.and_eq_true, and_assoc]

theorem withNote_isNormalized (i : Item) (h : i.isNormalized = true) :
    (i.withStillgelegtNote).isNormalized = true := by
  have hn : normStr (i.withStillgelegtNote).anmerkungen = true :=
    withNote_normStr i ((Item.isNormalized_iff i).mp h).2.2.2.2.2.2.2
  obtain ⟨a, ha⟩ := withNote_eq_copy i
  obtain ⟨h1, h2, h3, h4, h5, h6, h7, _⟩ := (Item.isNormalized_iff i).mp h
  rw [ha] at hn ⊢
  exact (Item.isNormalized_iff _).mpr ⟨h1, h2, h3, h4, h5, h6, h7, hn⟩

theorem withNote_id_set (i : Item) (j : Option Nat) :
    ({ i with id := j }).withStillgelegtNote = { i.withStillgelegtNote with id := j } := by
  simp only [Item.withStillgelegtNote]
  dsimp only
  split_ifs <;> rfl

theorem fromDbRow_itemToRow (n : Nat) (i : Item) (h : i.isNormalized = true) :
    Item.fromDbRow (itemToRow n i) = { i with id := some n } := by
  obtain ⟨h1, h2, h3, h4, h5, h6, h7, h8⟩ := (Item.isNormalized_iff i).mp h
  simp [Item.fromDbRow, itemToRow,
    dbValue_of_norm _ h1, dbValue_of_norm _ h2, dbValue_of_norm _ h3,
    dbValue_of_norm _ h4, dbValue_of_norm _ h5, dbValue_of_norm _ h6,
    dbValue_of_norm _ h7, dbValue_of_norm _ h8,
    normalizeValue_of_norm _ h1, normalizeValue_of_norm _ h2,
    normalizeValue_of_norm _ h3, normalizeValue_of_norm _ h4,
    normalizeValue_of_norm _ h5, normalizeValue_of_norm _ h6,
    normalizeValue_of_norm _ h7, normalizeValue_of_norm _ h8]

/-! ## Sample data used by witnesses and counterexamples -/

/-- A plain active record. -/
def sampleItem : Item := { Item.default with hersteller := some "Acme" }

/-- A record whose manufacturer carries surrounding whitespace. -/
def untrimmedItem : Item := { Item.default with hersteller := some " Acme " }

/-- A record typed as a notebook. -/
def typedItem : Item := { Item.default with objekttyp := some "Notebook" }

/-- A deactivated record with whitespace-only notes. -/
def wsNotesItem : Item :=
  { Item.default with
    stillgelegt := true
    anmerkungen := some " " }

/-- A deactivated record whose notes mention the marker mid-sentence. -/
def midSentenceItem : Item :=
  { Item.default with
    stillgelegt := true
    anmerkungen := some "War schon mal stillgelegt, dann reaktiviert" }

/-- A deactivated record with ordinary notes. -/
def noteItem : Item :=
  { Item.default with
    stillgelegt := true
    anmerkungen := some "abc" }

/-! ## C1 — update on a missing id -/

/-- C1: the claim states that on both backends `update(id, record)` fails
with `NotFound` when no stored record has the id, and in particular
`update(999, record)` on an empty store fails.  The JSON backend does
raise and leaves the store unchanged, but `SQLiteRepository.update`
never inspects the affected row count: on the empty store it leaves the
store unchanged yet returns the record with id 999 as a success instead
of raising — the code contradicts the documented contract the JSON
backend implements. -/
theorem c1_update_notFound_code_bug :
    jsonUpdate emptyJson 999 sampleItem = Except.error RepoError.notFound ∧
    sqliteUpdate emptySqlite 999 sampleItem
      = Except.ok ({ sampleItem with id := some 999 }, emptySqlite) := by
  exact ⟨rfl, rfl⟩

/-! ## C9 — the default holder cannot be bulk-cleared -/

/-- C9: for every owner string whose trimmed lowercase form equals the
default holder `"LAGER"` (lowercased), `clear_owner` returns 0 and
leaves the store unchanged, on both backends. -/
theorem c9_clear_owner_default_noop (j : JsonState) (s : SqliteState) (owner : String)
    (h : pyLower (pyStrip owner) = "lager") :
    jsonClearOwner j owner = (0, j) ∧ sqliteClearOwner s owner = (0, s) := by
  have hl : pyLower DEFAULT_OWNER = "lager" := by decide
  constructor
  · simp [jsonClearOwner, h, hl]
  · simp [sqliteClearOwner, h, hl]

theorem c9_witness :
    jsonClearOwner emptyJson " Lager " = (0, emptyJson) ∧
    sqliteClearOwner emptySqlite " Lager " = (0, emptySqlite) :=
  c9_clear_owner_default_noop emptyJson emptySqlite " Lager " (by decide)

/-! ## C10 — marker detection is a substring test -/

/-- C10: whenever a deactivated item's notes contain `"stillgelegt"`
case-insensitively anywhere — also mid-sentence, not on a line of its
own — `with_stillgelegt_note` returns the item unchanged and appends
nothing: detection is a plain substring test, not a line test. -/
theorem c10_marker_substring_no_append (r : Item) (h : r.stillgelegt = true)
    (hm : pyIn "stillgelegt" (pyLower (r.anmerkungen.getD "")) = true) :
    r.withStillgelegtNote = r :=
  withNote_of_marker r h hm

theorem c10_witness : midSentenceItem.withStillgelegtNote = midSentenceItem :=
  c10_marker_substring_no_append midSentenceItem rfl (by decide)

/-! ## C8 — serialization round-trip -/

/-- C8: for every record whose textual fields are already trimmed and
None-normalized, serializing and re-normalizing is the identity on both
backends: `Item.from_row (r.to_dict()) = r` (JSON document shape), and
reading back the SQLite row written through `_db_value` restores the
record with the backend id. -/
theorem c8_roundtrip (r : Item) (h : r.isNormalized = true) :
    Item.fromRow r.toDict = r ∧
    ∀ n : Nat, Item.fromDbRow (itemToRow n r) = { r with id := some n } := by
  obtain ⟨h1, h2, h3, h4, h5, h6, h7, h8⟩ := (Item.isNormalized_iff r).mp h
  constructor
  · simp [Item.fromRow, Item.toDict,
      normalizeValue_of_norm _ h1, normalizeValue_of_norm _ h2,
      normalizeValue_of_norm _ h3, normalizeValue_of_norm _ h4,
      normalizeValue_of_norm _ h5, normalizeValue_of_norm _ h6,
      normalizeValue_of_norm _ h7, normalizeValue_of_norm _ h8]
  · intro n
    exact fromDbRow_itemToRow n r h

theorem c8_witness :
    Item.fromRow sampleItem.toDict = sampleItem ∧
    Item.fromDbRow (itemToRow 5 sampleItem) = { sampleItem with id := some 5 } :=
  ⟨(c8_roundtrip sampleItem (by decide)).1,
   (c8_roundtrip sampleItem (by decide)).2 5⟩

/-! ## C6 — behaviour of `with_stillgelegt_note` -/

/-- C6 counterexample: for the deactivated record with whitespace-only
notes `" "` (marker absent, notes do not end in a newline), the claim
demands the marker appended after a newline separator, i.e. notes
`" \nStillgelegt"`; the code instead discards the whitespace and returns
exactly `"Stillgelegt"`. -/
theorem c6_counterexample :
    wsNotesItem.withStillgelegtNote.anmerkungen = some "Stillgelegt" ∧
    some "Stillgelegt" ≠ some (" " ++ "\n" ++ "Stillgelegt") := by
  exact ⟨rfl, by decide⟩

/-- C6 amended: `with_stillgelegt_note` is idempotent; it returns the
record unchanged when `deactivated` is false, and also when the notes
already contain the marker case-insensitively; otherwise, when the
existing notes are empty **or whitespace-only** the notes become exactly
`"Stillgelegt"` (any existing whitespace is discarded — not an append),
and only notes with non-whitespace content get the marker appended, with
a newline separator unless they already end in one. -/
theorem c6_amended (r : Item) :
    r.withStillgelegtNote.withStillgelegtNote = r.withStillgelegtNote ∧
    (r.stillgelegt = false → r.withStillgelegtNote = r) ∧
    (r.stillgelegt = true →
      pyIn "stillgelegt" (pyLower (r.anmerkungen.getD "")) = true →
      r.withStillgelegtNote = r) ∧
    (r.stillgelegt = true →
      pyIn "stillgelegt" (pyLower (r.anmerkungen.getD "")) = false →
      pyStrip (r.anmerkungen.getD "") = "" →
      r.withStillgelegtNote = { r with anmerkungen := some "Stillgelegt" }) ∧
    (r.stillgelegt = true →
      pyIn "stillgelegt" (pyLower (r.anmerkungen.getD "")) = false →
      pyStrip (r.anmerkungen.getD "") ≠ "" →
      r.withStillgelegtNote = { r with anmerkungen := some (appendMarker (r.anmerkungen.getD "")) }) := by
  refine ⟨withNote_idem r, withNote_of_inactive r, withNote_of_marker r, ?_, ?_⟩
  · intro h hm hstrip
    rcases withNote_append_shape r h hm with ⟨hne, _⟩ | ⟨_, heq⟩
    · exact absurd hstrip hne
    · exact heq
  · intro h hm hstrip
    rcases withNote_append_shape r h hm with ⟨_, heq⟩ | ⟨heq', _⟩
    · exact heq
    · exact absurd heq' hstrip

theorem c6_witness :
    noteItem.withStillgelegtNote.withStillgelegtNote = noteItem.withStillgelegtNote ∧
    noteItem.withStillgelegtNote = { noteItem with anmerkungen := some (appendMarker "abc") } :=
  ⟨(c6_amended noteItem).1,
   (c6_amended noteItem).2.2.2.2 rfl (by decide) (by decide)⟩

/-! ## C4 — create and the side registry table -/

/-- C4 counterexample: creating a `"Notebook"` record on an empty SQLite
store assigns id 1 but inserts nothing resembling the object type into
the only side registry table (`custom_values`) — the dropdown
registration claimed for `create` does not exist in the repository. -/
theorem c4_counterexample :
    ((sqliteCreate emptySqlite typedItem).2.custom_values.any
      (fun e => pyLower e.2 = pyLower "Notebook")) = false ∧
    (sqliteCreate emptySqlite typedItem).1.id = some 1 := by
  exact ⟨rfl, rfl⟩

/-- C4 amended: `SQLiteRepository.create` ignores any id on the input
record, inserts the reconciled record with the next backend-assigned id
and returns it with that id — but it leaves the side registry
(`custom_values`) table untouched; object-type dropdown registration
happens outside the repository. -/
theorem c4_amended (s : SqliteState) (i : Item) (j : Option Nat) :
    sqliteCreate s { i with id := j } = sqliteCreate s i ∧
    (sqliteCreate s i).1.id = some (s.seq + 1) ∧
    (sqliteCreate s i).2.custom_values = s.custom_values ∧
    (sqliteCreate s i).2.rows = s.rows ++ [itemToRow (s.seq + 1) i.withStillgelegtNote] := by
  refine ⟨?_, rfl, rfl, rfl⟩
  unfold sqliteCreate
  rw [withNote_id_set]
  rfl

/-! ## C3 — reversibility of the deactivation marker -/

/-- Only linefeeds occur among the line-break characters of `s`. -/
def onlyLF (s : String) : Bool :=
  s.data.all (fun c => !lineBreakChar c || c = '\n')

/-- The notes text after deactivating a record whose notes were `s`
(the repository reconciles the marker through `with_stillgelegt_note`). -/
def deactivatedNotes (s : String) : String :=
  (({ Item.default with
      stillgelegt := true
      anmerkungen := some s }).withStillgelegtNote).anmerkungen.getD ""

theorem lineBreakChar_lf : lineBreakChar '\n' = true := by decide

theorem dec_lf_cr : (decide (('\n' : Char) = '\r')) = false := by decide

theorem dropWhile_head_false (p : α → Bool) :
    ∀ (l : List α) (c : α) (t : List α), l.dropWhile p = c :: t → p c = false := by
  intro l
  induction l with
  | nil => intro c t h; simp at h
  | cons a l' ih =>
    intro c t h
    by_cases ha : p a = true
    · rw [List.dropWhile_cons_of_pos ha] at h
      exact ih c t h
    · rw [List.dropWhile_cons_of_neg (by simpa using ha)] at h
      cases h
      simpa using ha

theorem stripList_ne_nil (l : List Char) (h : pyRstripList l = l) (h0 : l ≠ []) :
    pyStripList l ≠ [] := by
  intro hnil
  unfold pyStripList at hnil
  cases hd : l.dropWhile pySpace with
  | nil =>
    have hall : ∀ c ∈ l, pySpace c = true := by
      have := List.dropWhile_eq_nil_iff.mp hd
      simpa using this
    have hrev : l.reverse.dropWhile pySpace = [] :=
      List.dropWhile_eq_nil_iff.mpr (by
        intro c hc
        simpa using hall c (List.mem_reverse.mp hc))
    have : pyRstripList l = [] := by
      unfold pyRstripList
      rw [hrev]; rfl
    exact h0 (by rw [← h, this])
  | cons c t =>
    have hc : pySpace c = false := dropWhile_head_false pySpace l c t hd
    rw [hd] at hnil
    unfold pyRstripList at hnil
    have hrev : (c :: t).reverse.dropWhile pySpace = [] := by
      have := congrArg List.reverse hnil
      simpa using this
    have := List.dropWhile_eq_nil_iff.mp hrev c (by simp)
    simp [hc] at this

theorem endsWith_lf_false (s : String) (h : pyRstrip s = s) (h0 : s ≠ "") :
    pyEndsWith s "\n" = false := by
  by_contra hc
  have hsuf : "\n".data <:+ s.data := by
    have ht : pyEndsWith s "\n" = true := by simpa using hc
    exact List.isSuffixOf_iff_suffix.mp ht
  obtain ⟨xs, hxs⟩ := hsuf
  have hdata : pyRstripList s.data = s.data := congrArg String.data h
  rw [← hxs] at hdata
  have heval : pyRstripList (xs ++ "\n".data) = (xs.reverse.dropWhile pySpace).reverse := by
    unfold pyRstripList
    rw [List.reverse_append]
    simp [List.dropWhile_cons_of_pos (by decide : pySpace '\n' = true)]
  rw [heval] at hdata
  have hlen1 : (xs.reverse.dropWhile pySpace).length ≤ xs.length := by
    simpa using (List.dropWhile_sublist (l := xs.reverse) pySpace).length_le
  have hlen2 := congrArg List.length hdata
  simp [List.length_reverse] at hlen2
  omega

theorem stripList_infix (l : List Char) : pyStripList l <:+: l :=
  ((prefix_of_rstripList _).isInfix).trans ((List.dropWhile_suffix _).isInfix)

theorem splitlinesGo_no_break (ys : List Char) :
    ∀ acc : List Char, (∀ c ∈ ys, lineBreakChar c = false) → acc.reverse ++ ys ≠ [] →
    splitlinesGo false acc ys = [acc.reverse ++ ys] := by
  induction ys with
  | nil =>
    intro acc _ h0
    have hacc : acc ≠ [] := by
      intro hacc; apply h0; simp [hacc]
    simp [splitlinesGo, List.isEmpty_iff, hacc]
  | cons c t ih =>
    intro acc hy _
    have hc : lineBreakChar c = false := hy c (List.mem_cons_self c t)
    have hstep : splitlinesGo false acc (c :: t) = splitlinesGo false (c :: acc) t := by
      simp [splitlinesGo, hc]
    rw [hstep, ih (c :: acc) (fun a ha => hy a (List.mem_cons_of_mem c ha)) (by simp)]
    simp

theorem splitlinesGo_lf_ne_nil (xs : List Char) :
    ∀ acc : List Char, splitlinesGo false acc (xs ++ "\n".data) ≠ [] := by
  induction xs with
  | nil =>
    intro acc
    simp [splitlinesGo, lineBreakChar_lf, dec_lf_cr]
  | cons c t ih =>
    intro acc
    by_cases hc : lineBreakChar c = true
    · simp [splitlinesGo, hc]
    · have hc' : lineBreakChar c = false := by simpa using hc
      have hstep : splitlinesGo false acc ((c :: t) ++ "\n".data)
          = splitlinesGo false (c :: acc) (t ++ "\n".data) := by
        simp [splitlinesGo, hc']
      rw [hstep]
      exact ih (c :: acc)

theorem joinLF_splitlinesGo (xs : List Char)
    (hx : ∀ c ∈ xs, lineBreakChar c = true → c = '\n') :
    ∀ acc : List Char, joinLF (splitlinesGo false acc (xs ++ "\n".data)) = acc.reverse ++ xs := by
  induction xs with
  | nil =>
    intro acc
    simp [splitlinesGo, joinLF, lineBreakChar_lf, dec_lf_cr]
  | cons c t ih =>
    intro acc
    have hct : ∀ a ∈ t, lineBreakChar a = true → a = '\n' :=
      fun a ha => hx a (List.mem_cons_of_mem c ha)
    by_cases hc : lineBreakChar c = true
    · have hcn : c = '\n' := hx c (List.mem_cons_self c t) hc
      subst hcn
      have hstep : splitlinesGo false acc (('\n' :: t) ++ "\n".data)
          = acc.reverse :: splitlinesGo false [] (t ++ "\n".data) := by
        simp [splitlinesGo, lineBreakChar_lf, dec_lf_cr]
      rw [hstep]
      obtain ⟨b, ls, hbl⟩ := List.exists_cons_of_ne_nil (splitlinesGo_lf_ne_nil t [])
      rw [hbl]
      show acc.reverse ++ '\n' :: joinLF (b :: ls) = acc.reverse ++ '\n' :: t
      rw [← hbl, ih hct []]
      simp
    · have hc' : lineBreakChar c = false := by simpa using hc
      have hstep : splitlinesGo false acc ((c :: t) ++ "\n".data)
          = splitlinesGo false (c :: acc) (t ++ "\n".data) := by
        simp [splitlinesGo, hc']
      rw [hstep, ih hct (c :: acc)]
      simp

theorem splitlinesGo_mem_infix (xs : List Char)
    (hx : ∀ c ∈ xs, lineBreakChar c = true → c = '\n') :
    ∀ acc : List Char, ∀ l ∈ splitlinesGo false acc (xs ++ "\n".data),
      l <:+: acc.reverse ++ xs := by
  induction xs with
  | nil =>
    intro acc l hl
    have : l = acc.reverse := by
      have hg : splitlinesGo false acc ([] ++ "\n".data) = [acc.reverse] := by
        simp [splitlinesGo, lineBreakChar_lf, dec_lf_cr]
      rw [hg] at hl
      simpa using hl
    subst this
    exact ⟨[], [], by simp⟩
  | cons c t ih =>
    intro acc l hl
    have hct : ∀ a ∈ t, lineBreakChar a = true → a = '\n' :=
      fun a ha => hx a (List.mem_cons_of_mem c ha)
    by_cases hc : lineBreakChar c = true
    · have hcn : c = '\n' := hx c (List.mem_cons_self c t) hc
      subst hcn
      have hstep : splitlinesGo false acc (('\n' :: t) ++ "\n".data)
          = acc.reverse :: splitlinesGo false [] (t ++ "\n".data) := by
        simp [splitlinesGo, lineBreakChar_lf, dec_lf_cr]
      rw [hstep] at hl
      rcases List.mem_cons.mp hl with hla | hlt
      · subst hla
        exact ⟨[], '\n' :: t, by simp⟩
      · have hinf : l <:+: t := by simpa using ih hct [] l hlt
        refine hinf.trans ?_
        have h1 : t <:+ '\n' :: t := List.suffix_cons '\n' t
        have h2 : '\n' :: t <:+ acc.reverse ++ '\n' :: t := List.suffix_append _ _
        exact (h1.trans h2).isInfix
    · have hc' : lineBreakChar c = false := by simpa using hc
      have hstep : splitlinesGo false acc ((c :: t) ++ "\n".data)
          = splitlinesGo false (c :: acc) (t ++ "\n".data) := by
        simp [splitlinesGo, hc']
      rw [hstep] at hl
      have := ih hct (c :: acc) l hl
      simpa [List.append_assoc] using this

theorem splitlinesGo_append (xs ys : List Char)
    (hx : ∀ c ∈ xs, lineBreakChar c = true → c = '\n')
    (hy : ∀ c ∈ ys, lineBreakChar c = false) (hy0 : ys ≠ []) :
    ∀ acc : List Char, splitlinesGo false acc (xs ++ '\n' :: ys)
      = splitlinesGo false acc (xs ++ "\n".data) ++ [ys] := by
  induction xs with
  | nil =>
    intro acc
    have h1 : splitlinesGo false acc ([] ++ '\n' :: ys)
        = acc.reverse :: splitlinesGo false [] ys := by
      simp [splitlinesGo, lineBreakChar_lf, dec_lf_cr]
    have h2 : splitlinesGo false [] ys = [ys] := by
      simpa using splitlinesGo_no_break ys [] hy (by simpa using hy0)
    have h3 : splitlinesGo false acc ([] ++ "\n".data) = [acc.reverse] := by
      simp [splitlinesGo, lineBreakChar_lf, dec_lf_cr]
    rw [h1, h2, h3]
    rfl
  | cons c t ih =>
    intro acc
    have hct : ∀ a ∈ t, lineBreakChar a = true → a = '\n' :=
      fun a ha => hx a (List.mem_cons_of_mem c ha)
    by_cases hc : lineBreakChar c = true
    · have hcn : c = '\n' := hx c (List.mem_cons_self c t) hc
      subst hcn
      have hstep1 : splitlinesGo false acc (('\n' :: t) ++ '\n' :: ys)
          = acc.reverse :: splitlinesGo false [] (t ++ '\n' :: ys) := by
        simp [splitlinesGo, lineBreakChar_lf, dec_lf_cr]
      have hstep2 : splitlinesGo false acc (('\n' :: t) ++ "\n".data)
          = acc.reverse :: splitlinesGo false [] (t ++ "\n".data) := by
        simp [splitlinesGo, lineBreakChar_lf, dec_lf_cr]
      rw [hstep1, hstep2, ih hct []]
      rfl
    · have hc' : lineBreakChar c = false := by simpa using hc
      have hstep1 : splitlinesGo false acc ((c :: t) ++ '\n' :: ys)
          = splitlinesGo false (c :: acc) (t ++ '\n' :: ys) := by
        simp [splitlinesGo, hc']
      have hstep2 : splitlinesGo false acc ((c :: t) ++ "\n".data)
          = splitlinesGo false (c :: acc) (t ++ "\n".data) := by
        simp [splitlinesGo, hc']
      rw [hstep1, hstep2, ih hct (c :: acc)]

/-- A record (before deactivation) whose notes end in a space. -/
def trailingSpaceItem : Item :=
  { Item.default with
    stillgelegt := true
    anmerkungen := some "abc " }

/-- C3 counterexample: for notes `"abc "` the deactivation appends the
marker (`"abc \nStillgelegt"`), but toggling back removes the marker
line **and** strips the trailing whitespace: the result is `"abc"`, not
the original `"abc "` — the other note content is not byte-identical. -/
theorem c3_counterexample :
    removeStillgelegtNote (trailingSpaceItem.withStillgelegtNote.anmerkungen.getD "")
      = "abc" ∧ "abc" ≠ "abc " := by
  exact ⟨by decide, by decide⟩

/-- C3 amended: toggling `deactivated` back to false removes every line
that trims case-insensitively to the marker and then strips trailing
whitespace from the whole text, rejoining lines with `'\n'`.  The
original notes are restored byte-identically whenever the
pre-deactivation notes contain no occurrence of `"stillgelegt"`
(case-insensitive), carry no trailing whitespace, and use only `'\n'`
line breaks; the counterexample shows trailing whitespace alone already
breaks byte-identical restoration. -/
theorem c3_amended (s : String)
    (h1 : pyIn "stillgelegt" (pyLower s) = false)
    (h2 : pyRstrip s = s)
    (h3 : onlyLF s = true) :
    removeStillgelegtNote (deactivatedNotes s) = s := by
  by_cases hs : s = ""
  · subst hs
    decide
  · have hd0 : s.data ≠ [] := by
      intro hnil
      exact hs (by cases s with | mk l => simpa using congrArg String.mk hnil)
    have hrd : pyRstripList s.data = s.data := congrArg String.data h2
    have hx : ∀ c ∈ s.data, lineBreakChar c = true → c = '\n' := by
      intro c hc hbr
      have := List.all_eq_true.mp h3 c hc
      simp [hbr] at this
      exact this
    have hstrip : pyStrip s ≠ "" := by
      intro hstr
      exact stripList_ne_nil s.data hrd hd0 (congrArg String.data hstr)
    have hends : pyEndsWith s "\n" = false := endsWith_lf_false s h2 hs
    have hdn : deactivatedNotes s = s ++ "\n" ++ "Stillgelegt" := by
      unfold deactivatedNotes
      rcases withNote_append_shape
          { Item.default with stillgelegt := true, anmerkungen := some s }
          rfl (by simpa using h1) with ⟨_, heq⟩ | ⟨hstr, _⟩
      · rw [heq]
        simp only [Option.getD_some, appendMarker]
        simp [hends]
      · exact absurd (by simpa using hstr) hstrip
    rw [hdn]
    unfold removeStillgelegtNote
    rw [if_neg (by
      intro hempty
      have := congrArg String.data hempty
      simp [String.data_append] at this)]
    have hdata : (s ++ "\n" ++ "Stillgelegt").data = s.data ++ '\n' :: "Stillgelegt".data := by
      simp [String.data_append]
    rw [hdata]
    show String.mk (pyRstripList (joinLF (List.filter _ (splitlines (s.data ++ '\n' :: "Stillgelegt".data))))) = s
    rw [show splitlines (s.data ++ '\n' :: "Stillgelegt".data)
        = splitlinesGo false [] (s.data ++ '\n' :: "Stillgelegt".data) from rfl]
    rw [splitlinesGo_append s.data "Stillgelegt".data hx (by decide) (by decide) []]
    rw [List.filter_append]
    have hM : List.filter
        (fun line => decide (¬(pyStripList line).map pyLowerChar = "stillgelegt".data))
        [("Stillgelegt".data)] = [] := by decide
    have hA : List.filter
        (fun line => decide (¬(pyStripList line).map pyLowerChar = "stillgelegt".data))
        (splitlinesGo false [] (s.data ++ "\n".data))
        = splitlinesGo false [] (s.data ++ "\n".data) := by
      rw [List.filter_eq_self]
      intro l hl
      simp only [decide_eq_true_eq]
      intro hmark
      have hinf : l <:+: s.data := by
        simpa using splitlinesGo_mem_infix s.data hx [] l hl
      have h5 : pyStripList l <:+: l := stripList_infix l
      have h6 : (pyStripList l).map pyLowerChar <:+: s.data.map pyLowerChar :=
        List.IsInfix.map pyLowerChar (h5.trans hinf)
      rw [hmark] at h6
      have : subListOf "stillgelegt".data (s.data.map pyLowerChar) = true :=
        (subListOf_iff _ _).mpr h6
      have hpy : pyIn "stillgelegt" (pyLower s) = true := this
      rw [hpy] at h1
      exact absurd h1 (by simp)
    rw [hM, hA, List.append_nil]
    rw [joinLF_splitlinesGo s.data hx []]
    simp only [List.reverse_nil, List.nil_append]
    rw [hrd]

theorem c3_witness :
    pyIn "stillgelegt" (pyLower "Rechner i7\nOK") = false ∧
    pyRstrip "Rechner i7\nOK" = "Rechner i7\nOK" ∧
    onlyLF "Rechner i7\nOK" = true ∧
    removeStillgelegtNote (deactivatedNotes "Rechner i7\nOK") = "Rechner i7\nOK" :=
  ⟨by decide, by decide, by decide,
   c3_amended "Rechner i7\nOK" (by decide) (by decide) (by decide)⟩

/-! ## C7 — filter monotonicity -/

/-- The per-field condition an item must satisfy under a filter mapping
(inactive filters — absent or empty — hold vacuously). -/
def jsonFieldPred (f : Filters) (x : Item) : Bool :=
  fieldKeys.all (fun k =>
    match f.get k with
    | none => true
    | some v => if v = "" then true else jsonMatchesField x k v)

/-- The global-search condition an item must satisfy. -/
def jsonGlobalPred (f : Filters) (x : Item) : Bool :=
  match f.globalSearch with
  | none => true
  | some v => if v = "" then true else jsonMatchesGlobal x v

theorem mem_filtersFold (f : Filters) (ks : List FieldKey) (x : Item) :
    ∀ items : List Item, x ∈ ks.foldl (fun acc k =>
      match f.get k with
      | none => acc
      | some v => if v = "" then acc else acc.filter (fun i => jsonMatchesField i k v)) items
    ↔ x ∈ items ∧ ∀ k ∈ ks, (match f.get k with
      | none => true
      | some v => if v = "" then true else jsonMatchesField x k v) = true := by
  induction ks with
  | nil => intro items; simp
  | cons k ks ih =>
    intro items
    rw [List.foldl_cons, ih]
    cases hk : f.get k with
    | none => simp [hk]
    | some v =>
      by_cases hv : v = ""
      · simp [hk, hv]
      · simp only [hk, hv, if_neg hv, List.mem_filter, List.forall_mem_cons, if_false]
        constructor
        · rintro ⟨⟨hx1, hx2⟩, hx3⟩
          exact ⟨hx1, by simp [hv, hx2], hx3⟩
        · rintro ⟨hx1, hx2, hx3⟩
          refine ⟨⟨hx1, ?_⟩, hx3⟩
          simpa [hv] using hx2

theorem mem_jsonApplyFieldFilters (f : Filters) (items : List Item) (x : Item) :
    x ∈ jsonApplyFieldFilters f items ↔ x ∈ items ∧ jsonFieldPred f x = true := by
  rw [jsonApplyFieldFilters, mem_filtersFold]
  simp [jsonFieldPred, List.all_eq_true]

theorem mem_jsonApplyGlobal (f : Filters) (items : List Item) (x : Item) :
    x ∈ jsonApplyGlobal f items ↔ x ∈ items ∧ jsonGlobalPred f x = true := by
  unfold jsonApplyGlobal jsonGlobalPred
  cases f.globalSearch with
  | none => simp
  | some v =>
    by_cases hv : v = ""
    · simp [hv]
    · simp [hv, List.mem_filter]

theorem mem_jsonListResult (j : JsonState) (f : Filters) (x : Item) :
    x ∈ jsonListResult j (some f) ↔ ∃ y, y ∈ (jsonEnsureNotes j).items ∧
      jsonFieldPred f y = true ∧ jsonGlobalPred f y = true ∧
      y.withStillgelegtNote = x := by
  show x ∈ sortedItems ((jsonApplyGlobal f (jsonApplyFieldFilters f (jsonEnsureNotes j).items)).map Item.withStillgelegtNote) ↔ _
  rw [sortedItems]
  rw [mem_stableSort]
  simp only [List.mem_map, mem_jsonApplyGlobal, mem_jsonApplyFieldFilters]
  constructor
  · rintro ⟨y, ⟨⟨hy1, hy2⟩, hy3⟩, hy4⟩
    exact ⟨y, hy1, hy2, hy3, hy4⟩
  · rintro ⟨y, hy1, hy2, hy3, hy4⟩
    exact ⟨y, ⟨⟨hy1, hy2⟩, hy3⟩, hy4⟩

theorem mem_sqliteListResult (s : SqliteState) (f : Filters) (x : Item) :
    x ∈ sqliteListResult s (some f) ↔ ∃ r, r ∈ s.rows ∧
      (sqliteFieldCond f r && sqliteGlobalCond f r) = true ∧
      (Item.fromDbRow r).withStillgelegtNote = x := by
  show x ∈ (stableSort rowLE (s.rows.filter _)).map _ ↔ _
  rw [List.mem_map]
  constructor
  · rintro ⟨r, hr, hrx⟩
    rw [mem_stableSort, List.mem_filter] at hr
    exact ⟨r, hr.1, hr.2, hrx⟩
  · rintro ⟨r, hr1, hr2, hr3⟩
    exact ⟨r, by rw [mem_stableSort, List.mem_filter]; exact ⟨hr1, hr2⟩, hr3⟩

theorem Filters.Subset.get_cases (f1 f2 : Filters) (hs : Filters.Subset f1 f2) :
    ∀ k : FieldKey, f1.get k = none ∨ f1.get k = f2.get k := by
  obtain ⟨h1, h2, h3, h4, h5, h6, h7, h8, _⟩ := hs
  intro k
  cases k <;> assumption

theorem jsonFieldPred_mono (f1 f2 : Filters) (hs : Filters.Subset f1 f2) (x : Item)
    (h : jsonFieldPred f2 x = true) : jsonFieldPred f1 x = true := by
  simp only [jsonFieldPred, List.all_eq_true] at h ⊢
  intro k hk
  rcases Filters.Subset.get_cases f1 f2 hs k with h1 | h1
  · simp [h1]
  · rw [h1]
    exact h k hk

theorem jsonGlobalPred_mono (f1 f2 : Filters) (hs : Filters.Subset f1 f2) (x : Item)
    (h : jsonGlobalPred f2 x = true) : jsonGlobalPred f1 x = true := by
  rcases hs.2.2.2.2.2.2.2.2 with h1 | h1
  · simp [jsonGlobalPred, h1]
  · unfold jsonGlobalPred at h ⊢
    rw [h1]
    exact h

theorem sqliteFieldCond_mono (f1 f2 : Filters) (hs : Filters.Subset f1 f2) (r : Row)
    (h : sqliteFieldCond f2 r = true) : sqliteFieldCond f1 r = true := by
  simp only [sqliteFieldCond, List.all_eq_true] at h ⊢
  intro k hk
  rcases Filters.Subset.get_cases f1 f2 hs k with h1 | h1
  · simp [h1]
  · rw [h1]
    exact h k hk

theorem sqliteGlobalCond_mono (f1 f2 : Filters) (hs : Filters.Subset f1 f2) (r : Row)
    (h : sqliteGlobalCond f2 r = true) : sqliteGlobalCond f1 r = true := by
  rcases hs.2.2.2.2.2.2.2.2 with h1 | h1
  · simp [sqliteGlobalCond, h1]
  · unfold sqliteGlobalCond at h ⊢
    rw [h1]
    exact h

/-- C7: for filter mappings `F1 ⊆ F2` (as field:value pairs, the global
search included) and a fixed stored state, every record returned by
`list(F2)` is also returned by `list(F1)`, on both backends — all active
filters are conjoined. -/
theorem c7_filter_monotone (F1 F2 : Filters) (hs : Filters.Subset F1 F2)
    (j : JsonState) (s : SqliteState) (x : Item) :
    (x ∈ jsonListResult j (some F2) → x ∈ jsonListResult j (some F1)) ∧
    (x ∈ sqliteListResult s (some F2) → x ∈ sqliteListResult s (some F1)) := by
  constructor
  · intro hx
    rw [mem_jsonListResult] at hx ⊢
    obtain ⟨y, hy1, hy2, hy3, hy4⟩ := hx
    exact ⟨y, hy1, jsonFieldPred_mono F1 F2 hs y hy2,
      jsonGlobalPred_mono F1 F2 hs y hy3, hy4⟩
  · intro hx
    rw [mem_sqliteListResult] at hx ⊢
    obtain ⟨r, hr1, hr2, hr3⟩ := hx
    rw [Bool.and_eq_true] at hr2
    refine ⟨r, hr1, ?_, hr3⟩
    rw [Bool.and_eq_true]
    exact ⟨sqliteFieldCond_mono F1 F2 hs r hr2.1, sqliteGlobalCond_mono F1 F2 hs r hr2.2⟩

/-- Witness data: one stored notebook record. -/
def wItem : Item :=
  { Item.default with
    id := some 1
    objekttyp := some "Notebook"
    hersteller := some "Acme" }

/-- The same record as a stored SQLite row. -/
def wRow : Row :=
  { id := 1
    objekttyp := some "Notebook"
    hersteller := some "Acme"
    modell := none
    seriennummer := none
    einkaufsdatum := none
    zuweisungsdatum := none
    aktueller_besitzer := none
    anmerkungen := none
    stillgelegt := false }

/-- JSON store holding the witness record. -/
def wJson : JsonState := { items := [wItem], custom_values := [] }

/-- SQLite store holding the witness record. -/
def wSqlite : SqliteState := { rows := [wRow], seq := 1, custom_values := [] }

/-- Narrow filter: manufacturer substring plus a global search. -/
def wF2 : Filters :=
  { Filters.empty with
    hersteller := some "acm"
    globalSearch := some "note" }

/-- Wider filter: manufacturer substring only (a subset of `wF2`). -/
def wF1 : Filters := { Filters.empty with hersteller := some "acm" }

theorem c7_witness :
    wItem ∈ jsonListResult wJson (some wF1) ∧
    wItem ∈ sqliteListResult wSqlite (some wF1) :=
  ⟨(c7_filter_monotone wF1 wF2 (by decide) wJson wSqlite wItem).1 (by decide),
   (c7_filter_monotone wF1 wF2 (by decide) wJson wSqlite wItem).2 (by decide)⟩

/-! ## C5 — sort determinism and cross-backend ordering -/

theorem pyLower_ne_empty (s : String) (h : s ≠ "") : pyLower s ≠ "" := by
  intro hc
  apply h
  have hdata : s.data.map pyLowerChar = [] := congrArg String.data hc
  have hnil : s.data = [] := by
    cases hd : s.data with
    | nil => rfl
    | cons c cs => rw [hd] at hdata; simp at hdata
  cases s with | mk l => simpa using congrArg String.mk hnil

theorem listLexLT_irrefl (l : List Char) : listLexLT l l = false := by
  induction l with
  | nil => rfl
  | cons a as ih => simp [listLexLT, ih]

theorem listLexLE_nil_false (l : List Char) (h : l ≠ []) : listLexLE l [] = false := by
  cases l with
  | nil => exact absurd rfl h
  | cons a as => rfl

theorem listLexLT_nil_false (l : List Char) : listLexLT l [] = false := by
  cases l <;> rfl

theorem listLexLE_eq_lt_of_ne (l m : List Char) (h : l ≠ m) :
    listLexLE l m = listLexLT l m := by
  induction l generalizing m with
  | nil =>
    cases m with
    | nil => exact absurd rfl h
    | cons b bs => rfl
  | cons a as ih =>
    cases m with
    | nil => rfl
    | cons b bs =>
      by_cases hab : a = b
      · subst hab
        have hne : as ≠ bs := fun hc => h (by rw [hc])
        simp [listLexLE, listLexLT, ih bs hne]
      · simp [listLexLE, listLexLT, hab]

theorem listLexLE_total (l m : List Char) :
    listLexLE l m = true ∨ listLexLE m l = true := by
  induction l generalizing m with
  | nil => exact Or.inl rfl
  | cons a as ih =>
    cases m with
    | nil => exact Or.inr rfl
    | cons b bs =>
      by_cases hab : a = b
      · subst hab
        rcases ih bs with h1 | h1
        · exact Or.inl (by simp [listLexLE, h1])
        · exact Or.inr (by simp [listLexLE, h1])
      · rcases lt_or_gt_of_ne hab with hlt | hlt
        · exact Or.inl (by simp [listLexLE, hab, hlt])
        · exact Or.inr (by simp [listLexLE, Ne.symm hab, hlt])

theorem listLexLE_trans (l m n : List Char)
    (h1 : listLexLE l m = true) (h2 : listLexLE m n = true) :
    listLexLE l n = true := by
  induction l generalizing m n with
  | nil => rfl
  | cons a as ih =>
    cases m with
    | nil => simp [listLexLE] at h1
    | cons b bs =>
      cases n with
      | nil => simp [listLexLE_nil_false] at h2
      | cons c cs =>
        by_cases hab : a = b
        · subst hab
          by_cases hbc : a = c
          · subst hbc
            simp only [listLexLE, if_pos rfl] at h1 h2 ⊢
            exact ih bs cs h1 h2
          · simp only [listLexLE, if_pos rfl] at h1
            simp only [listLexLE, if_neg hbc] at h2 ⊢
            exact h2
        · simp only [listLexLE, if_neg hab, decide_eq_true_eq] at h1
          by_cases hbc : b = c
          · subst hbc
            simp only [listLexLE, if_neg hab, decide_eq_true_eq]
            exact h1
          · simp only [listLexLE, if_neg hbc, decide_eq_true_eq] at h2
            have hac : a < c := lt_trans h1 h2
            simp only [listLexLE, if_neg (ne_of_lt hac), decide_eq_true_eq]
            exact hac

theorem listLexLT_trans (l m n : List Char)
    (h1 : listLexLT l m = true) (h2 : listLexLT m n = true) :
    listLexLT l n = true := by
  induction l generalizing m n with
  | nil =>
    cases m with
    | nil => simp [listLexLT] at h1
    | cons b bs =>
      cases n with
      | nil => simp [listLexLT_nil_false] at h2
      | cons c cs => rfl
  | cons a as ih =>
    cases m with
    | nil => simp [listLexLT_nil_false] at h1
    | cons b bs =>
      cases n with
      | nil => simp [listLexLT_nil_false] at h2
      | cons c cs =>
        by_cases hab : a = b
        · subst hab
          by_cases hbc : a = c
          · subst hbc
            simp only [listLexLT, if_pos rfl] at h1 h2 ⊢
            exact ih bs cs h1 h2
          · simp only [listLexLT, if_pos rfl] at h1
            simp only [listLexLT, if_neg hbc] at h2 ⊢
            exact h2
        · simp only [listLexLT, if_neg hab, decide_eq_true_eq] at h1
          by_cases hbc : b = c
          · subst hbc
            simp only [listLexLT, if_neg hab, decide_eq_true_eq]
            exact h1
          · simp only [listLexLT, if_neg hbc, decide_eq_true_eq] at h2
            have hac : a < c := lt_trans h1 h2
            simp only [listLexLT, if_neg (ne_of_lt hac), decide_eq_true_eq]
            exact hac

theorem strLT_irrefl (s : String) : strLT s s = false := listLexLT_irrefl s.data

theorem strLE_eq_lt_of_ne (s t : String) (h : s ≠ t) : strLE s t = strLT s t :=
  listLexLE_eq_lt_of_ne s.data t.data (fun hc => h (congrArg String.mk hc))

theorem strLE_empty_false (s : String) (h : s ≠ "") : strLE s "" = false :=
  listLexLE_nil_false s.data
    (fun hc => h (by cases s with | mk l => simpa using congrArg String.mk hc))

theorem strLT_empty_left (s : String) (h : s ≠ "") : strLT "" s = true := by
  show listLexLT [] s.data = true
  cases hd : s.data with
  | nil => exact absurd (by cases s with | mk l => simpa using congrArg String.mk hd) h
  | cons c cs => rfl

theorem itemSortKey_withNote (i : Item) :
    itemSortKey i.withStillgelegtNote = itemSortKey i := by
  obtain ⟨a, ha⟩ := withNote_eq_copy i
  rw [ha]
  rfl

theorem nocaseChar_eq_pyLowerChar (c : Char) (h : c.toNat < 128) :
    nocaseChar c = pyLowerChar c := by
  unfold nocaseChar pyLowerChar
  by_cases haz : 65 ≤ c.toNat ∧ c.toNat ≤ 90
  · rw [if_pos haz, if_pos (Or.inl haz)]
  · rw [if_neg haz, if_neg ?_]
    rintro (h1 | ⟨h2, _, _⟩)
    · exact haz h1
    · omega

theorem nocaseFold_eq_pyLower (s : String) (h : asciiStr s = true) :
    nocaseFold s = pyLower s := by
  unfold nocaseFold pyLower
  congr 1
  refine List.map_congr_left ?_
  intro c hc
  have hlt : c.toNat < 128 := by
    have := (List.all_eq_true.mp h) c hc
    simpa using this
  exact nocaseChar_eq_pyLowerChar c hlt

theorem mapOpt_nocase_eq (v : Option String) (h : asciiOpt v = true) :
    v.map nocaseFold = v.map pyLower := by
  cases v with
  | none => rfl
  | some s =>
    simp only [Option.map_some']
    rw [nocaseFold_eq_pyLower s h]

theorem nocaseLE_eq_le (v w : Option String) (hv : normStr v = true) (hw : normStr w = true)
    (hav : asciiOpt v = true) (haw : asciiOpt w = true) :
    nocaseLE v w = strLE (pyLower (v.getD "")) (pyLower (w.getD "")) := by
  cases v with
  | none =>
    cases w with
    | none => rfl
    | some s => rfl
  | some x =>
    cases w with
    | none =>
      have hx : x ≠ "" := by
        simp only [normStr, Bool.and_eq_true, decide_eq_true_eq] at hv
        exact hv.2
      simp only [nocaseLE, Option.getD]
      exact (strLE_empty_false (pyLower x) (pyLower_ne_empty x hx)).symm
    | some y =>
      simp only [nocaseLE, Option.getD]
      rw [nocaseFold_eq_pyLower x hav, nocaseFold_eq_pyLower y haw]

theorem nocaseLE_eq_lt (v w : Option String) (hv : normStr v = true) (hw : normStr w = true)
    (hav : asciiOpt v = true) (haw : asciiOpt w = true)
    (hne : pyLower (v.getD "") ≠ pyLower (w.getD "")) :
    nocaseLE v w = strLT (pyLower (v.getD "")) (pyLower (w.getD "")) := by
  cases v with
  | none =>
    cases w with
    | none => exact absurd rfl hne
    | some s =>
      have hs : s ≠ "" := by
        simp only [normStr, Bool.and_eq_true, decide_eq_true_eq] at hw
        exact hw.2
      simp only [nocaseLE, Option.getD]
      exact (strLT_empty_left (pyLower s) (pyLower_ne_empty s hs)).symm
  | some x =>
    cases w with
    | none =>
      simp only [nocaseLE, Option.getD]
      exact (listLexLT_nil_false (pyLower x).data).symm
    | some y =>
      simp only [nocaseLE, Option.getD] at hne ⊢
      rw [nocaseFold_eq_pyLower x hav, nocaseFold_eq_pyLower y haw]
      exact strLE_eq_lt_of_ne _ _ hne

theorem optkey_eq_iff (v w : Option String) (hv : normStr v = true) (hw : normStr w = true) :
    v.map pyLower = w.map pyLower ↔ pyLower (v.getD "") = pyLower (w.getD "") := by
  cases v with
  | none =>
    cases w with
    | none => simp
    | some s =>
      have hs : s ≠ "" := by
        simp only [normStr, Bool.and_eq_true, decide_eq_true_eq] at hw
        exact hw.2
      simp only [Option.map_none', Option.map_some', Option.getD]
      constructor
      · intro hc; exact absurd hc (by simp)
      · intro hc; exact absurd hc.symm (pyLower_ne_empty s hs)
  | some x =>
    cases w with
    | none =>
      have hx : x ≠ "" := by
        simp only [normStr, Bool.and_eq_true, decide_eq_true_eq] at hv
        exact hv.2
      simp only [Option.map_none', Option.map_some', Option.getD]
      constructor
      · intro hc; exact absurd hc (by simp)
      · intro hc; exact absurd hc (pyLower_ne_empty x hx)
    | some y => simp [Option.getD]

theorem fromDbRow_sortKey (r : Row) (h : rowNormalized r = true) :
    itemSortKey (Item.fromDbRow r)
      = (pyLower (r.objekttyp.getD ""), pyLower (r.modell.getD "")) := by
  obtain ⟨h1, _, h3, _⟩ := (rowNormalized_iff r).mp h
  simp [itemSortKey, Item.fromDbRow, normalizeValue_of_norm _ h1, normalizeValue_of_norm _ h3]

theorem rowLE_eq_itemLE (r1 r2 : Row)
    (h1 : rowNormalized r1 = true) (h2 : rowNormalized r2 = true)
    (ha1 : rowKeyAscii r1 = true) (ha2 : rowKeyAscii r2 = true) :
    rowLE r1 r2 = itemLE ((Item.fromDbRow r1).withStillgelegtNote)
      ((Item.fromDbRow r2).withStillgelegtNote) := by
  obtain ⟨h1o, _, h1m, _⟩ := (rowNormalized_iff r1).mp h1
  obtain ⟨h2o, _, h2m, _⟩ := (rowNormalized_iff r2).mp h2
  simp only [rowKeyAscii, Bool.and_eq_true] at ha1 ha2
  unfold rowLE itemLE
  rw [itemSortKey_withNote, itemSortKey_withNote, fromDbRow_sortKey r1 h1,
    fromDbRow_sortKey r2 h2]
  rw [mapOpt_nocase_eq _ ha1.1, mapOpt_nocase_eq _ ha2.1]
  by_cases hk : pyLower (r1.objekttyp.getD "") = pyLower (r2.objekttyp.getD "")
  · rw [if_pos ((optkey_eq_iff _ _ h1o h2o).mpr hk), if_pos hk]
    exact nocaseLE_eq_le _ _ h1m h2m ha1.2 ha2.2
  · rw [if_neg (fun hc => hk ((optkey_eq_iff _ _ h1o h2o).mp hc)), if_neg hk]
    exact nocaseLE_eq_lt _ _ h1o h2o ha1.1 ha2.1 hk

theorem itemLE_trans (a b c : Item) (hab : itemLE a b = true) (hbc : itemLE b c = true) :
    itemLE a c = true := by
  unfold itemLE at hab hbc ⊢
  by_cases h1 : (itemSortKey a).1 = (itemSortKey b).1
  · rw [if_pos h1] at hab
    by_cases h2 : (itemSortKey b).1 = (itemSortKey c).1
    · rw [if_pos h2] at hbc
      rw [if_pos (h1.trans h2)]
      exact listLexLE_trans _ _ _ hab hbc
    · rw [if_neg h2] at hbc
      have hac : strLT (itemSortKey a).1 (itemSortKey c).1 = true := h1 ▸ hbc
      have hne : (itemSortKey a).1 ≠ (itemSortKey c).1 := by
        intro hc
        rw [hc] at hac
        rw [strLT_irrefl] at hac
        exact absurd hac (by simp)
      rw [if_neg hne]
      exact hac
  · rw [if_neg h1] at hab
    by_cases h2 : (itemSortKey b).1 = (itemSortKey c).1
    · have hac : strLT (itemSortKey a).1 (itemSortKey c).1 = true := h2 ▸ hab
      have hne : (itemSortKey a).1 ≠ (itemSortKey c).1 := by
        intro hc
        rw [hc] at hac
        rw [strLT_irrefl] at hac
        exact absurd hac (by simp)
      rw [if_neg hne]
      exact hac
    · rw [if_neg h2] at hbc
      have hac : strLT (itemSortKey a).1 (itemSortKey c).1 = true :=
        listLexLT_trans _ _ _ hab hbc
      have hne : (itemSortKey a).1 ≠ (itemSortKey c).1 := by
        intro hc
        rw [hc] at hac
        rw [strLT_irrefl] at hac
        exact absurd hac (by simp)
      rw [if_neg hne]
      exact hac

theorem itemLE_total (a b : Item) : itemLE a b = true ∨ itemLE b a = true := by
  unfold itemLE
  by_cases h : (itemSortKey a).1 = (itemSortKey b).1
  · rw [if_pos h, if_pos h.symm]
    rcases listLexLE_total (itemSortKey a).2.data (itemSortKey b).2.data with h1 | h1
    · exact Or.inl h1
    · exact Or.inr h1
  · rw [if_neg h, if_neg (Ne.symm h)]
    have hne : (itemSortKey a).1 ≠ (itemSortKey b).1 := h
    rcases listLexLE_total (itemSortKey a).1.data (itemSortKey b).1.data with h1 | h1
    · left
      rw [← strLE_eq_lt_of_ne _ _ hne]
      exact h1
    · right
      rw [← strLE_eq_lt_of_ne _ _ (Ne.symm hne)]
      exact h1

theorem withNote_reconcile (i : Item) :
    (reconcileItem i).withStillgelegtNote = i.withStillgelegtNote := by
  simp only [reconcileItem]
  split
  · exact withNote_idem i
  · rfl

/-- Row data with untrimmed stored text (as a legacy or externally
written database may contain): `" z"` sorts before `"a "` under
`COLLATE NOCASE`, but the returned, normalized records are then out of
order. -/
def rowSpacedZ : Row :=
  { id := 1
    objekttyp := some " z"
    hersteller := none
    modell := none
    seriennummer := none
    einkaufsdatum := none
    zuweisungsdatum := none
    aktueller_besitzer := none
    anmerkungen := none
    stillgelegt := false }

/-- Second untrimmed row. -/
def rowSpacedA : Row := { rowSpacedZ with id := 2, objekttyp := some "a " }

/-- A SQLite store holding the two untrimmed rows. -/
def badSqlite : SqliteState :=
  { rows := [rowSpacedZ, rowSpacedA], seq := 2, custom_values := [] }

/-- The two records as they come back from `list(None)`. -/
def itemZ : Item := { Item.default with id := some 1, objekttyp := some "z" }

/-- Second returned record. -/
def itemA : Item := { Item.default with id := some 2, objekttyp := some "a" }

/-- Rows whose object types differ only in the case of a non-ASCII
letter: CPython's `str.lower` folds `Ä` to `ä`, SQLite `NOCASE` leaves
both unchanged, so the two backends order them differently. -/
def rowUmlA : Row :=
  { id := 1
    objekttyp := some "ä"
    hersteller := none
    modell := none
    seriennummer := none
    einkaufsdatum := none
    zuweisungsdatum := none
    aktueller_besitzer := none
    anmerkungen := none
    stillgelegt := false }

/-- The second umlaut row (`Ä`, upper case). -/
def rowUmlB : Row := { rowUmlA with id := 2, objekttyp := some "Ä" }

/-- A fully trimmed/normalized SQLite store holding the two umlaut rows. -/
def umlSqlite : SqliteState :=
  { rows := [rowUmlA, rowUmlB], seq := 2, custom_values := [] }

/-- The same two records, in the same stored order, in the JSON backend. -/
def umlJson : JsonState :=
  { items := [rowUmlA, rowUmlB].map Item.fromDbRow, custom_values := [] }

/-- C5 counterexample, two parts.  (a) On a store with untrimmed stored
text, `list(None)` of the SQLite backend returns records that are
**not** ordered by the case-insensitive `(object_type, model)` key: the
rows are ordered by their raw stored values (`" z" < "a "`), but
`from_row` trims them, so the returned sequence is `["z", "a"]` with its
first record not below its second.  (b) Even on a fully normalized store
the two backends need not return the same sequence: for object types
`"ä"` and `"Ä"` Python's `str.lower` makes the keys tie (stable order
`[ä, Ä]`) while `NOCASE` folds neither and SQLite orders them by code
point (`[Ä, ä]`). -/
theorem c5_counterexample :
    (sqliteListResult badSqlite none = [itemZ, itemA] ∧ itemLE itemZ itemA = false) ∧
    ((∀ r ∈ umlSqlite.rows, rowNormalized r = true) ∧
      umlJson.items = umlSqlite.rows.map Item.fromDbRow ∧
      jsonListResult umlJson none
        = [Item.fromDbRow rowUmlA, Item.fromDbRow rowUmlB] ∧
      sqliteListResult umlSqlite none
        = [Item.fromDbRow rowUmlB, Item.fromDbRow rowUmlA]) := by
  exact ⟨⟨by decide, by decide⟩, by decide, by decide, by decide, by decide⟩

/-- `list(None)` of the JSON backend is the stable sort of the
reconciled items. -/
theorem jsonListResult_none (j : JsonState) :
    jsonListResult j none = stableSort itemLE (j.items.map Item.withStillgelegtNote) := by
  show sortedItems (((jsonEnsureNotes j).items).map Item.withStillgelegtNote) = _
  unfold sortedItems jsonEnsureNotes
  congr 1
  show (j.items.map reconcileItem).map Item.withStillgelegtNote = _
  rw [List.map_map]
  exact List.map_congr_left (fun i _ => withNote_reconcile i)

theorem sqliteListResult_none (s : SqliteState)
    (hn : ∀ r ∈ s.rows, rowNormalized r = true)
    (ha : ∀ r ∈ s.rows, rowKeyAscii r = true) :
    sqliteListResult s none
      = stableSort itemLE ((s.rows.map Item.fromDbRow).map Item.withStillgelegtNote) := by
  show (stableSort rowLE s.rows).map (fun r => (Item.fromDbRow r).withStillgelegtNote) = _
  rw [map_stableSort rowLE itemLE _ s.rows
    (fun x hx y hy => rowLE_eq_itemLE x y (hn x hx) (hn y hy) (ha x hx) (ha y hy))]
  rw [List.map_map]
  rfl

theorem listNone_eq_of_corr (s : SqliteState) (j : JsonState)
    (hn : ∀ r ∈ s.rows, rowNormalized r = true)
    (ha : ∀ r ∈ s.rows, rowKeyAscii r = true)
    (hcorr : j.items = s.rows.map Item.fromDbRow) :
    jsonListResult j none = sqliteListResult s none := by
  rw [jsonListResult_none, sqliteListResult_none s hn ha, hcorr]

/-- `list(None)` of either backend returns a permutation of the
reconciled stored records, independently of any collation. -/
theorem listNone_perm_of_corr (s : SqliteState) (j : JsonState)
    (hcorr : j.items = s.rows.map Item.fromDbRow) :
    (jsonListResult j none).Perm (sqliteListResult s none) := by
  rw [jsonListResult_none]
  have hjson : List.Perm (stableSort itemLE (j.items.map Item.withStillgelegtNote))
      (j.items.map Item.withStillgelegtNote) := stableSort_perm itemLE _
  have hsql : List.Perm (sqliteListResult s none) (j.items.map Item.withStillgelegtNote) := by
    show List.Perm
      ((stableSort rowLE s.rows).map (fun r => (Item.fromDbRow r).withStillgelegtNote)) _
    have h1 : List.Perm
        ((stableSort rowLE s.rows).map (fun r => (Item.fromDbRow r).withStillgelegtNote))
        (s.rows.map (fun r => (Item.fromDbRow r).withStillgelegtNote)) :=
      (stableSort_perm rowLE s.rows).map _
    have h2 : s.rows.map (fun r => (Item.fromDbRow r).withStillgelegtNote)
        = j.items.map Item.withStillgelegtNote := by
      rw [hcorr, List.map_map]
      rfl
    exact h2 ▸ h1
  exact hjson.trans hsql.symm

/-- C5 amended: for stores whose stored textual fields satisfy the
Record invariant (trimmed, None-normalized) and whose `objekttyp` and
`modell` texts are ASCII (so Python's `str.lower` and SQLite's
ASCII-only `NOCASE` fold agree), `list(None)` returns the records
sorted by the case-insensitive `(objekttyp, modell)` key — regardless
of insertion order — and the JSON and SQLite backends return the
identical sequence when they hold the same records in the same stored
order. -/
theorem c5_sorted_and_parity (s : SqliteState) (j : JsonState)
    (hn : ∀ r ∈ s.rows, rowNormalized r = true)
    (ha : ∀ r ∈ s.rows, rowKeyAscii r = true)
    (hcorr : j.items = s.rows.map Item.fromDbRow) :
    jsonListResult j none = sqliteListResult s none ∧
    (jsonListResult j none).Pairwise (fun a b => itemLE a b = true) := by
  refine ⟨listNone_eq_of_corr s j hn ha hcorr, ?_⟩
  rw [jsonListResult_none]
  exact sorted_stableSort itemLE itemLE_trans itemLE_total _

theorem c5_witness :
    jsonListResult wJson none = sqliteListResult wSqlite none ∧
    (jsonListResult wJson none).Pairwise (fun a b => itemLE a b = true) :=
  c5_sorted_and_parity wSqlite wJson (by decide) (by decide) (by decide)

/-! ## C2 — backend parity under replayed call sequences -/

/-- The Item argument carried by a call (if any) is normalized. -/
def Op.itemNormalized : Op → Bool
  | .create i => i.isNormalized
  | .update _ i => i.isNormalized
  | .delete _ => true
  | .deactivate _ => true

/-- Whether the call is a `delete`. -/
def Op.isDelete : Op → Bool
  | .delete _ => true
  | _ => false

/-- The id the JSON backend would use next is derived from the stored
maximum. -/
def maxId (items : List Item) : Nat := (items.map (fun i => i.id.getD 0)).foldr max 0

theorem le_foldr_max (l : List Nat) (x : Nat) (hx : x ∈ l) : x ≤ l.foldr max 0 := by
  induction l with
  | nil => simp at hx
  | cons a t ih =>
    rcases List.mem_cons.mp hx with rfl | hxt
    · exact le_max_left _ _
    · exact le_trans (ih hxt) (le_max_right _ _)

theorem foldr_max_append (l : List Nat) (v : Nat) :
    (l ++ [v]).foldr max 0 = max (l.foldr max 0) v := by
  induction l with
  | nil => simp [max_comm]
  | cons a t ih =>
    simp only [List.cons_append, List.foldr_cons, ih]
    rw [← max_assoc]

theorem maxId_map_fromDbRow (rows : List Row) :
    maxId (rows.map Item.fromDbRow) = (rows.map (fun r => r.id)).foldr max 0 := by
  unfold maxId
  rw [List.map_map]
  congr 1

/-- The correspondence invariant between the two backends along a
replayed call sequence. -/
structure Corr (j : JsonState) (s : SqliteState) : Prop where
  rows_items : j.items = s.rows.map Item.fromDbRow
  rows_norm : ∀ r ∈ s.rows, rowNormalized r = true
  items_fix : ∀ i ∈ j.items, i.withStillgelegtNote = i
  seq_eq : s.seq = (s.rows.map (fun r => r.id)).foldr max 0
  ids_nodup : (s.rows.map (fun r => r.id)).Nodup

theorem corr_empty : Corr emptyJson emptySqlite := by
  refine ⟨rfl, ?_, ?_, rfl, ?_⟩ <;> simp [emptyJson, emptySqlite]

theorem itemToRow_normalized (n : Nat) (i : Item) (h : i.isNormalized = true) :
    rowNormalized (itemToRow n i) = true := by
  obtain ⟨h1, h2, h3, h4, h5, h6, h7, h8⟩ := (Item.isNormalized_iff i).mp h
  refine (rowNormalized_iff _).mpr ?_
  simp only [itemToRow,
    dbValue_of_norm _ h1, dbValue_of_norm _ h2, dbValue_of_norm _ h3,
    dbValue_of_norm _ h4, dbValue_of_norm _ h5, dbValue_of_norm _ h6,
    dbValue_of_norm _ h7, dbValue_of_norm _ h8]
  exact ⟨h1, h2, h3, h4, h5, h6, h7, h8⟩

theorem updateRowFields_normalized (i : Item) (r : Row) (h : i.isNormalized = true) :
    rowNormalized (updateRowFields i r) = true := by
  obtain ⟨h1, h2, h3, h4, h5, h6, h7, h8⟩ := (Item.isNormalized_iff i).mp h
  refine (rowNormalized_iff _).mpr ?_
  simp only [updateRowFields,
    dbValue_of_norm _ h1, dbValue_of_norm _ h2, dbValue_of_norm _ h3,
    dbValue_of_norm _ h4, dbValue_of_norm _ h5, dbValue_of_norm _ h6,
    dbValue_of_norm _ h7, dbValue_of_norm _ h8]
  exact ⟨h1, h2, h3, h4, h5, h6, h7, h8⟩

theorem fromDbRow_updateRowFields (i : Item) (r : Row) (h : i.isNormalized = true) :
    Item.fromDbRow (updateRowFields i r) = { i with id := some r.id } := by
  obtain ⟨h1, h2, h3, h4, h5, h6, h7, h8⟩ := (Item.isNormalized_iff i).mp h
  simp [Item.fromDbRow, updateRowFields,
    dbValue_of_norm _ h1, dbValue_of_norm _ h2, dbValue_of_norm _ h3,
    dbValue_of_norm _ h4, dbValue_of_norm _ h5, dbValue_of_norm _ h6,
    dbValue_of_norm _ h7, dbValue_of_norm _ h8,
    normalizeValue_of_norm _ h1, normalizeValue_of_norm _ h2,
    normalizeValue_of_norm _ h3, normalizeValue_of_norm _ h4,
    normalizeValue_of_norm _ h5, normalizeValue_of_norm _ h6,
    normalizeValue_of_norm _ h7, normalizeValue_of_norm _ h8]

theorem fromDbRow_isNormalized (r : Row) (h : rowNormalized r = true) :
    (Item.fromDbRow r).isNormalized = true := by
  obtain ⟨h1, h2, h3, h4, h5, h6, h7, h8⟩ := (rowNormalized_iff r).mp h
  refine (Item.isNormalized_iff _).mpr ?_
  simp only [Item.fromDbRow,
    normalizeValue_of_norm _ h1, normalizeValue_of_norm _ h2,
    normalizeValue_of_norm _ h3, normalizeValue_of_norm _ h4,
    normalizeValue_of_norm _ h5, normalizeValue_of_norm _ h6,
    normalizeValue_of_norm _ h7, normalizeValue_of_norm _ h8]
  exact ⟨h1, h2, h3, h4, h5, h6, h7, h8⟩

theorem map_update_id_of_not_mem (i' : Item) (id0 : Nat) (rs : List Row)
    (h : id0 ∉ rs.map (fun r => r.id)) :
    rs.map (fun x => if x.id = id0 then updateRowFields i' x else x) = rs := by
  have : rs.map (fun x => if x.id = id0 then updateRowFields i' x else x) = rs.map id := by
    refine List.map_congr_left ?_
    intro x hx
    have hne : x.id ≠ id0 := fun hc => h (hc ▸ List.mem_map_of_mem (fun r => r.id) hx)
    simp [hne]
  rw [this, List.map_id]

theorem update_corr (i' : Item) (id0 : Nat) (hni : i'.isNormalized = true) :
    ∀ rows : List Row, (∀ r ∈ rows, rowNormalized r = true) →
    ((rows.map (fun r => r.id)).Nodup) →
    (replaceFirstById { i' with id := some id0 } id0 (rows.map Item.fromDbRow) = none ∧
      rows.map (fun r => if r.id = id0 then updateRowFields i' r else r) = rows)
    ∨ (replaceFirstById { i' with id := some id0 } id0 (rows.map Item.fromDbRow)
        = some ((rows.map (fun r => if r.id = id0 then updateRowFields i' r else r)).map
            Item.fromDbRow)) := by
  intro rows
  induction rows with
  | nil =>
    intro _ _
    exact Or.inl ⟨rfl, rfl⟩
  | cons r rs ih =>
    intro hn hnd
    have hns : ∀ x ∈ rs, rowNormalized x = true :=
      fun x hx => hn x (List.mem_cons_of_mem r hx)
    have hnd2 : (r.id :: rs.map (fun r => r.id)).Nodup := by simpa using hnd
    have hnd' := List.nodup_cons.mp hnd2
    by_cases hid : r.id = id0
    · right
      have hid0mem : id0 ∉ rs.map (fun r => r.id) := hid ▸ hnd'.1
      have htail := map_update_id_of_not_mem i' id0 rs hid0mem
      have hcond : (Item.fromDbRow r).id = some id0 := by
        simp [Item.fromDbRow, hid]
      have hrepl : replaceFirstById { i' with id := some id0 } id0
          ((r :: rs).map Item.fromDbRow)
          = some ({ i' with id := some id0 } :: rs.map Item.fromDbRow) := by
        simp only [List.map_cons, replaceFirstById, if_pos hcond]
      rw [hrepl]
      congr 1
      simp only [List.map_cons, if_pos hid, htail]
      rw [fromDbRow_updateRowFields i' r hni, hid]
    · have hcond : ¬ (Item.fromDbRow r).id = some id0 := by
        simp [Item.fromDbRow, hid]
      rcases ih hns hnd'.2 with ⟨h1, h2⟩ | h1
      · left
        constructor
        · simp only [List.map_cons, replaceFirstById, if_neg hcond, h1]
        · simp only [List.map_cons, if_neg hid, h2]
      · right
        simp only [List.map_cons, replaceFirstById, if_neg hcond, h1, if_neg hid]

/-- The record produced by `deactivate`: deactivated and reconciled. -/
def deactItem (i : Item) : Item := ({ i with stillgelegt := true }).withStillgelegtNote

/-- The row written by the `UPDATE` of `SQLiteRepository.deactivate`. -/
def deactRow (a : Option String) (r : Row) : Row :=
  { r with stillgelegt := true, anmerkungen := a }

theorem deactItem_isNormalized (i : Item) (h : i.isNormalized = true) :
    (deactItem i).isNormalized = true := by
  refine withNote_isNormalized _ ?_
  rw [Item.isNormalized_iff] at h ⊢
  exact h

theorem fromDbRow_deactRow (r : Row) (h : rowNormalized r = true) :
    Item.fromDbRow (deactRow (deactItem (Item.fromDbRow r)).anmerkungen r)
      = deactItem (Item.fromDbRow r) := by
  have hni : (Item.fromDbRow r).isNormalized = true := fromDbRow_isNormalized r h
  have hna : normStr (deactItem (Item.fromDbRow r)).anmerkungen = true :=
    ((Item.isNormalized_iff _).mp (deactItem_isNormalized _ hni)).2.2.2.2.2.2.2
  obtain ⟨h1, h2, h3, h4, h5, h6, h7, _⟩ := (rowNormalized_iff r).mp h
  obtain ⟨a, ha⟩ := withNote_eq_copy ({ Item.fromDbRow r with stillgelegt := true })
  have hda : deactItem (Item.fromDbRow r)
      = { Item.fromDbRow r with stillgelegt := true, anmerkungen := a } := ha
  rw [hda]
  simp only [Item.fromDbRow, deactRow,
    normalizeValue_of_norm _ h1, normalizeValue_of_norm _ h2,
    normalizeValue_of_norm _ h3, normalizeValue_of_norm _ h4,
    normalizeValue_of_norm _ h5, normalizeValue_of_norm _ h6,
    normalizeValue_of_norm _ h7]
  have hna' : Item.normalizeValue a = a := by
    refine normalizeValue_of_norm a ?_
    rw [hda] at hna
    exact hna
  rw [hna']

theorem deactRow_normalized (r : Row) (a : Option String)
    (h : rowNormalized r = true) (hna : normStr a = true) :
    rowNormalized (deactRow a r) = true := by
  obtain ⟨h1, h2, h3, h4, h5, h6, h7, _⟩ := (rowNormalized_iff r).mp h
  exact (rowNormalized_iff _).mpr ⟨h1, h2, h3, h4, h5, h6, h7, hna⟩

theorem map_deact_id_of_not_mem (a : Option String) (id0 : Nat) (rs : List Row)
    (h : id0 ∉ rs.map (fun r => r.id)) :
    rs.map (fun x => if x.id = id0 then deactRow a x else x) = rs := by
  have : rs.map (fun x => if x.id = id0 then deactRow a x else x) = rs.map id := by
    refine List.map_congr_left ?_
    intro x hx
    have hne : x.id ≠ id0 := fun hc => h (hc ▸ List.mem_map_of_mem (fun r => r.id) hx)
    simp [hne]
  rw [this, List.map_id]

theorem deact_corr (id0 : Nat) :
    ∀ rows : List Row, (∀ r ∈ rows, rowNormalized r = true) →
    ((rows.map (fun r => r.id)).Nodup) →
    (rows.find? (fun r => decide (r.id = id0)) = none ∧
      deactivateFirstById id0 (rows.map Item.fromDbRow) = none)
    ∨ (∃ r0, rows.find? (fun r => decide (r.id = id0)) = some r0 ∧
        rowNormalized r0 = true ∧
        deactivateFirstById id0 (rows.map Item.fromDbRow)
          = some (deactItem (Item.fromDbRow r0),
              (rows.map (fun r =>
                if r.id = id0
                then deactRow (deactItem (Item.fromDbRow r0)).anmerkungen r
                else r)).map Item.fromDbRow)) := by
  intro rows
  induction rows with
  | nil =>
    intro _ _
    exact Or.inl ⟨rfl, rfl⟩
  | cons r rs ih =>
    intro hn hnd
    have hnr := hn r (List.mem_cons_self r rs)
    have hns : ∀ x ∈ rs, rowNormalized x = true :=
      fun x hx => hn x (List.mem_cons_of_mem r hx)
    have hnd2 : (r.id :: rs.map (fun r => r.id)).Nodup := by simpa using hnd
    have hnd' := List.nodup_cons.mp hnd2
    by_cases hid : r.id = id0
    · right
      refine ⟨r, ?_, hnr, ?_⟩
      · simp [List.find?_cons, hid]
      · have hid0mem : id0 ∉ rs.map (fun r => r.id) := hid ▸ hnd'.1
        have htail := map_deact_id_of_not_mem
          (deactItem (Item.fromDbRow r)).anmerkungen id0 rs hid0mem
        have hcond : (Item.fromDbRow r).id = some id0 := by
          simp [Item.fromDbRow, hid]
        have hjson : deactivateFirstById id0 ((r :: rs).map Item.fromDbRow)
            = some (deactItem (Item.fromDbRow r),
                deactItem (Item.fromDbRow r) :: rs.map Item.fromDbRow) := by
          simp only [List.map_cons, deactivateFirstById, if_pos hcond]
          rfl
        rw [hjson]
        simp only [List.map_cons, if_pos hid, htail]
        rw [fromDbRow_deactRow r hnr]
    · have hcond : ¬ (Item.fromDbRow r).id = some id0 := by
        simp [Item.fromDbRow, hid]
      rcases ih hns hnd'.2 with ⟨h1, h2⟩ | ⟨r0, hf, hn0, h2⟩
      · left
        constructor
        · simp [List.find?_cons, hid, h1]
        · simp only [List.map_cons, deactivateFirstById, if_neg hcond, h2]
      · right
        refine ⟨r0, ?_, hn0, ?_⟩
        · simp [List.find?_cons, hid, hf]
        · simp only [List.map_cons, deactivateFirstById, if_neg hcond, h2, if_neg hid]

theorem ids_map_update (i' : Item) (id0 : Nat) (rows : List Row) :
    (rows.map (fun r => if r.id = id0 then updateRowFields i' r else r)).map (fun r => r.id)
      = rows.map (fun r => r.id) := by
  rw [List.map_map]
  refine List.map_congr_left ?_
  intro r _
  by_cases hid : r.id = id0 <;> simp [hid, updateRowFields]

theorem ids_map_deact (a : Option String) (id0 : Nat) (rows : List Row) :
    (rows.map (fun r => if r.id = id0 then deactRow a r else r)).map (fun r => r.id)
      = rows.map (fun r => r.id) := by
  rw [List.map_map]
  refine List.map_congr_left ?_
  intro r _
  by_cases hid : r.id = id0 <;> simp [hid, deactRow]

theorem withNote_fix_id_set (i : Item) (v : Option Nat) :
    ({ i.withStillgelegtNote with id := v } : Item).withStillgelegtNote
      = { i.withStillgelegtNote with id := v } := by
  rw [withNote_id_set, withNote_idem]

theorem corr_step (j : JsonState) (s : SqliteState) (op : Op) (hc : Corr j s)
    (hn : op.itemNormalized = true) (hd : op.isDelete = false) :
    Corr (jsonApplyOp j op) (sqliteApplyOp s op) := by
  obtain ⟨hri, hrn, hfix, hseq, hnd⟩ := hc
  cases op with
  | delete _ => simp [Op.isDelete] at hd
  | create i =>
    have hni : i.isNormalized = true := hn
    have hni' : i.withStillgelegtNote.isNormalized = true := withNote_isNormalized i hni
    have hnext : jsonNextId j = s.seq + 1 := by
      unfold jsonNextId
      have h1 : (j.items.map (fun i => i.id.getD 0)).foldr max 0 = maxId j.items := rfl
      rw [h1, hri, maxId_map_fromDbRow, ← hseq]
    show Corr { j with items := j.items ++ [{ i.withStillgelegtNote with id := some (jsonNextId j) }] } { s with rows := s.rows ++ [itemToRow (s.seq + 1) i.withStillgelegtNote], seq := s.seq + 1 }
    constructor
    · show j.items ++ [{ i.withStillgelegtNote with id := some (jsonNextId j) }]
        = (s.rows ++ [itemToRow (s.seq + 1) i.withStillgelegtNote]).map Item.fromDbRow
      rw [List.map_append, ← hri, List.map_singleton,
        fromDbRow_itemToRow _ _ hni', hnext]
    · intro r hr
      rcases List.mem_append.mp hr with h1 | h1
      · exact hrn r h1
      · rw [List.mem_singleton.mp h1]
        exact itemToRow_normalized _ _ hni'
    · intro x hx
      rcases List.mem_append.mp hx with h1 | h1
      · exact hfix x h1
      · rw [List.mem_singleton.mp h1]
        exact withNote_fix_id_set i _
    · show s.seq + 1 = ((s.rows ++ [itemToRow (s.seq + 1) i.withStillgelegtNote]).map (fun r => r.id)).foldr max 0
      rw [List.map_append, List.map_singleton, foldr_max_append, ← hseq]
      show s.seq + 1 = max s.seq (itemToRow (s.seq + 1) i.withStillgelegtNote).id
      have hidval : (itemToRow (s.seq + 1) i.withStillgelegtNote).id = s.seq + 1 := rfl
      rw [hidval]
      omega
    · show ((s.rows ++ [itemToRow (s.seq + 1) i.withStillgelegtNote]).map (fun r => r.id)).Nodup
      rw [List.map_append, List.map_singleton]
      rw [List.nodup_append]
      refine ⟨hnd, List.nodup_singleton _, ?_⟩
      intro x hx
      have hxle : x ≤ s.seq := hseq ▸ le_foldr_max _ x hx
      have hidval : (itemToRow (s.seq + 1) i.withStillgelegtNote).id = s.seq + 1 := rfl
      simp only [List.mem_singleton, hidval]
      omega
  | update id0 i =>
    have hni : i.isNormalized = true := hn
    have hni' : i.withStillgelegtNote.isNormalized = true := withNote_isNormalized i hni
    rcases update_corr i.withStillgelegtNote id0 hni' s.rows hrn hnd with ⟨h1, h2⟩ | h1
    · have hjson : jsonApplyOp j (.update id0 i) = j := by
        show (match jsonUpdate j id0 i with | .ok (_, s') => s' | .error _ => j) = j
        simp only [jsonUpdate]
        rw [hri, h1]
      have hsql : sqliteApplyOp s (.update id0 i) = s := by
        show ({ s with rows := s.rows.map (fun r => if r.id = id0 then updateRowFields i.withStillgelegtNote r else r) } : SqliteState) = s
        rw [h2]
      rw [hjson, hsql]
      exact ⟨hri, hrn, hfix, hseq, hnd⟩
    · have hjson : jsonApplyOp j (.update id0 i)
          = { j with items := (s.rows.map (fun r => if r.id = id0 then updateRowFields i.withStillgelegtNote r else r)).map Item.fromDbRow } := by
        show (match jsonUpdate j id0 i with | .ok (_, s') => s' | .error _ => j) = _
        simp only [jsonUpdate]
        rw [hri, h1]
      have hsql : sqliteApplyOp s (.update id0 i)
          = { s with rows := s.rows.map (fun r => if r.id = id0 then updateRowFields i.withStillgelegtNote r else r) } := rfl
      rw [hjson, hsql]
      constructor
      · rfl
      · intro r hr
        rcases List.mem_map.mp hr with ⟨r0, hr0, hrr⟩
        by_cases hid : r0.id = id0
        · rw [← hrr, if_pos hid]
          exact updateRowFields_normalized _ _ hni'
        · rw [← hrr, if_neg hid]
          exact hrn r0 hr0
      · intro x hx
        rcases List.mem_map.mp hx with ⟨r1, hr1, hrr1⟩
        rcases List.mem_map.mp hr1 with ⟨r2, hr2, hrr2⟩
        by_cases hid : r2.id = id0
        · rw [← hrr1, ← hrr2, if_pos hid, fromDbRow_updateRowFields _ _ hni']
          exact withNote_fix_id_set i _
        · rw [← hrr1, ← hrr2, if_neg hid]
          exact hfix _ (hri ▸ List.mem_map_of_mem Item.fromDbRow hr2)
      · show s.seq = _
        rw [ids_map_update, ← hseq]
      · show ((s.rows.map (fun r => if r.id = id0 then updateRowFields i.withStillgelegtNote r else r)).map (fun r => r.id)).Nodup
        rw [ids_map_update]
        exact hnd
  | deactivate id0 =>
    rcases deact_corr id0 s.rows hrn hnd with ⟨h1, h2⟩ | ⟨r0, hf, hn0, h2⟩
    · have hjson : jsonApplyOp j (.deactivate id0) = j := by
        show (match jsonDeactivate j id0 with | .ok (_, s') => s' | .error _ => j) = j
        simp only [jsonDeactivate]
        rw [hri, h2]
      have hsql : sqliteApplyOp s (.deactivate id0) = s := by
        show (match sqliteDeactivate s id0 with | .ok (_, s') => s' | .error _ => s) = s
        simp only [sqliteDeactivate, sqliteGet]
        rw [h1]
      rw [hjson, hsql]
      exact ⟨hri, hrn, hfix, hseq, hnd⟩
    · have hmem0 : r0 ∈ s.rows := List.mem_of_find?_eq_some hf
      have hfix0 : (Item.fromDbRow r0).withStillgelegtNote = Item.fromDbRow r0 :=
        hfix _ (hri ▸ List.mem_map_of_mem Item.fromDbRow hmem0)
      have hna : normStr (deactItem (Item.fromDbRow r0)).anmerkungen = true :=
        ((Item.isNormalized_iff _).mp
          (deactItem_isNormalized _ (fromDbRow_isNormalized r0 hn0))).2.2.2.2.2.2.2
      have hjson : jsonApplyOp j (.deactivate id0)
          = { j with items := (s.rows.map (fun r => if r.id = id0 then deactRow (deactItem (Item.fromDbRow r0)).anmerkungen r else r)).map Item.fromDbRow } := by
        show (match jsonDeactivate j id0 with | .ok (_, s') => s' | .error _ => j) = _
        simp only [jsonDeactivate]
        rw [hri, h2]
      have hsql : sqliteApplyOp s (.deactivate id0)
          = { s with rows := s.rows.map (fun r => if r.id = id0 then deactRow (deactItem (Item.fromDbRow r0)).anmerkungen r else r) } := by
        show (match sqliteDeactivate s id0 with | .ok (_, s') => s' | .error _ => s) = _
        simp only [sqliteDeactivate, sqliteGet]
        rw [hf]
        simp only [Option.some.injEq, hfix0]
        rfl
      rw [hjson, hsql]
      constructor
      · rfl
      · intro r hr
        rcases List.mem_map.mp hr with ⟨r1, hr1, hrr⟩
        by_cases hid : r1.id = id0
        · rw [← hrr, if_pos hid]
          exact deactRow_normalized _ _ (hrn r1 hr1) hna
        · rw [← hrr, if_neg hid]
          exact hrn r1 hr1
      · intro x hx
        rcases List.mem_map.mp hx with ⟨r1, hr1, hrr1⟩
        rcases List.mem_map.mp hr1 with ⟨r2, hr2, hrr2⟩
        by_cases hid : r2.id = id0
        · have hr2id : r2 = r0 := by
            have h0 : r0.id = id0 := by
              have := List.find?_some hf
              simpa using this
            have hinj : (fun r : Row => r.id) r2 = (fun r : Row => r.id) r0 := by
              simp [hid, h0]
            exact List.inj_on_of_nodup_map hnd hr2 hmem0 hinj
          rw [← hrr1, ← hrr2, if_pos hid, hr2id, fromDbRow_deactRow r0 hn0]
          exact withNote_idem _
        · rw [← hrr1, ← hrr2, if_neg hid]
          exact hfix _ (hri ▸ List.mem_map_of_mem Item.fromDbRow hr2)
      · show s.seq = _
        rw [ids_map_deact, ← hseq]
      · show ((s.rows.map (fun r => if r.id = id0 then deactRow (deactItem (Item.fromDbRow r0)).anmerkungen r else r)).map (fun r => r.id)).Nodup
        rw [ids_map_deact]
        exact hnd

theorem corr_replay_aux (ops : List Op) :
    ∀ (j : JsonState) (s : SqliteState), Corr j s →
    (∀ op ∈ ops, op.itemNormalized = true) → (∀ op ∈ ops, op.isDelete = false) →
    Corr (ops.foldl jsonApplyOp j) (ops.foldl sqliteApplyOp s) := by
  induction ops with
  | nil =>
    intro j s hc _ _
    exact hc
  | cons op ops ih =>
    intro j s hc hn hd
    rw [List.foldl_cons, List.foldl_cons]
    exact ih _ _
      (corr_step j s op hc (hn op (List.mem_cons_self op ops)) (hd op (List.mem_cons_self op ops)))
      (fun o ho => hn o (List.mem_cons_of_mem op ho))
      (fun o ho => hd o (List.mem_cons_of_mem op ho))

/-- C2 counterexample: (a) the JSON backend stores `create` inputs
verbatim while the SQLite backend trims them through `_db_value`, so one
`create` of a record with manufacturer `" Acme "` already yields
different record sets; (b) after `create, delete 1, create`, the JSON
backend reuses id 1 (`max+1`) while SQLite `AUTOINCREMENT` assigns id 2,
so the ids are not assigned in the same order once `delete` is
involved. -/
theorem c2_counterexample :
    jsonListResult (jsonReplay [Op.create untrimmedItem]) none
      ≠ sqliteListResult (sqliteReplay [Op.create untrimmedItem]) none ∧
    (jsonListResult (jsonReplay [Op.create sampleItem, Op.delete 1, Op.create sampleItem]) none).map Item.id
      ≠ (sqliteListResult (sqliteReplay [Op.create sampleItem, Op.delete 1, Op.create sampleItem]) none).map Item.id := by
  exact ⟨by decide, by decide⟩

/-- C2 amended: for every finite sequence of create/update/deactivate
calls (no delete, so both backends assign ids in the same order from the
same empty start) in which every record argument has trimmed,
None-normalized textual fields, replaying against both backends from an
empty store makes `list(None)` return equal record sets: each backend's
result is a permutation of the other's (the orderings themselves may
differ, because SQLite's `NOCASE` collation folds only ASCII while
Python's `str.lower` also folds letters such as `Ä`). -/
theorem c2_backend_parity (ops : List Op)
    (hnorm : ∀ op ∈ ops, op.itemNormalized = true)
    (hnodel : ∀ op ∈ ops, op.isDelete = false) :
    (jsonListResult (jsonReplay ops) none).Perm
      (sqliteListResult (sqliteReplay ops) none) := by
  have hc := corr_replay_aux ops emptyJson emptySqlite corr_empty hnorm hnodel
  exact listNone_perm_of_corr _ _ hc.rows_items

theorem c2_witness :
    (jsonListResult (jsonReplay [Op.create sampleItem, Op.create typedItem, Op.deactivate 1]) none).Perm
      (sqliteListResult (sqliteReplay [Op.create sampleItem, Op.create typedItem, Op.deactivate 1]) none) :=
  c2_backend_parity [Op.create sampleItem, Op.create typedItem, Op.deactivate 1]
    (by decide) (by decide)
